import Mathlib

/-! temsim-gpu: random number engine (`ransubs`) and transform buffer (`rfpix`)

A shallow embedding of `src/temsim/ransubs.hpp`, `src/temsim/ransubs.cpp` and
`src/temsim-cuda/rfpix.cpp`, followed by theorems about the embedded code.

Conventions
* `uint64_t` values are natural numbers below `2^64`; every operation that can
  leave that range is reduced `% 2^64` explicitly.
* `int` values are integers; `long` is the 64-bit signed type.
* A `double` whose exact value the code determines (the value returned by
  `ranflat`, a literal) is carried as the rational number it denotes.  All other
  floating-point arithmetic and the C library functions are taken from a record
  of operations (`FloatOps`), so every theorem holds for whatever arithmetic the
  platform provides.
* Loops that the source does not bound are given a fuel argument and return
  `Option`; `none` means the fuel ran out (or, where a definition says so, that
  an `int` counter would overflow), never a result.
* `int` products in `rfpix` are reduced to 32-bit two's complement (`intMul`).
-/

namespace Temsim

/-! ## `ransubs`: generator state -/

/-- The three data members of `class ransubs`. -/
structure ransubs where
  /-- Field `uint64_t iseed`: the generator state word. -/
  iseed : Nat
  /-- Field `uint64_t initseed`: copy of the initialisation seed. -/
  initseed : Nat
  /-- Field `int initOK`: negative after a bad initialisation. -/
  initOK : Int
  deriving DecidableEq, Repr

/-- Conversion of a signed integer to `uint64_t` (reduction modulo `2^64`). -/
def toU64 (z : Int) : Nat := (z % 2 ^ 64).toNat

/-- The cast `(long)` applied to a `time_t` value: wrap into `[-2^63, 2^63)`. -/
def toLong (t : Int) : Int := (t + 2 ^ 63) % 2 ^ 64 - 2 ^ 63

/-- Constructor `ransubs::ransubs(uint64_t iseed0)`.  The argument `clock` is the
value returned by `time(NULL)`; it is only read when `iseed0` is zero. -/
def ransubs.new (iseed0 : Nat) (clock : Int) : ransubs :=
  if iseed0 = 0 then
    let ltime := toLong clock
    let initseed := toU64 ltime
    if ltime = -1 then
      { iseed := toU64 234, initseed := initseed, initOK := -1 }
    else
      { iseed := toU64 ltime, initseed := initseed, initOK := 1 }
  else
    { iseed := iseed0, initseed := iseed0, initOK := 1 }

/-- Member `getInitSeed()`. -/
def ransubs.getInitSeed (r : ransubs) : Nat := r.initseed

/-- Member `getStatus()`. -/
def ransubs.getStatus (r : ransubs) : Int := r.initOK

/-- Member `resetSeed(newSeed)`. -/
def ransubs.resetSeed (r : ransubs) (newSeed : Nat) : ransubs :=
  { r with iseed := newSeed }

/-! ## `ranflat` -/

/-- The state update of `ranflat`:
`iseed ^= iseed >> 12; iseed ^= iseed << 25; iseed ^= iseed >> 27;`
on a 64-bit word (the left shift drops the bits above bit 63). -/
def ranflatState (s : Nat) : Nat :=
  let s1 := s ^^^ (s >>> 12)
  let s2 := s1 ^^^ ((s1 <<< 25) % 2 ^ 64)
  s2 ^^^ (s2 >>> 27)

/-- The 64-bit product `UINT64_C(2685821657736338717) * iseed`. -/
def ranflatWord (s : Nat) : Nat := (2685821657736338717 * s) % 2 ^ 64

/-- The conversion `double(w)` of an unsigned 64-bit word: `w` rounded to 53
significant bits, ties to even.  The result is the exact value of the double. -/
def roundToDouble (w : Nat) : Nat :=
  if w < 2 ^ 53 then w
  else
    let e := Nat.log2 w - 52
    let q := w >>> e
    let r := w % 2 ^ e
    let half := 2 ^ (e - 1)
    if r < half then q <<< e
    else if half < r then (q + 1) <<< e
    else if q % 2 = 0 then q <<< e
    else (q + 1) <<< e

/-- The decimal literal `5.42101086242752217E-20` as written in the source. -/
def scaleLiteral : ℚ := 542101086242752217 / 10 ^ 37

/-- The double denoted by the literal `5.42101086242752217E-20`, namely `2^-64`
(see `scaleLiteral_rounds_to_scale`). -/
def ranflatScale : ℚ := 1 / 2 ^ 64

/-- Exact value of the double returned by `ranflat` when the updated state is
`s`: `5.42101086242752217E-20 * double(2685821657736338717 * s)`.  The scale is a
power of two and the result is at least `2^-64`, so the floating-point product
is exact. -/
def ranflatValue (s : Nat) : ℚ := ranflatScale * (roundToDouble (ranflatWord s) : ℚ)

/-- Member `ranflat()` as a function of the state word: the new state and the
exact value of the returned double. -/
def ranflat (s : Nat) : Nat × ℚ :=
  let s' := ranflatState s
  (s', ranflatValue s')

/-- Member `ranflat()` on the object. -/
def ransubs.ranflat (r : ransubs) : ransubs × ℚ :=
  ({ r with iseed := (Temsim.ranflat r.iseed).1 }, (Temsim.ranflat r.iseed).2)

/-! ## Floating-point operations supplied by the platform -/

/-- Operations of a binary floating-point format (`double` in `ransubs`, `float`
in `rfpix`) together with the C library functions the sources call.  `ofRat q` is
the value of the format nearest to `q` (literals, conversions from `int`, and
doubles whose exact value is known); `toInt` is the cast `(int)`; `lt`, `le`,
`ne` are the C comparisons `<`, `<=`, `!=`. -/
structure FloatOps (D : Type) where
  ofRat : ℚ → D
  toInt : D → Int
  neg : D → D
  add : D → D → D
  sub : D → D → D
  mul : D → D → D
  div : D → D → D
  lt : D → D → Bool
  le : D → D → Bool
  ne : D → D → Bool
  exp : D → D
  log : D → D
  sqrt : D → D
  atan : D → D
  cos : D → D

/-! ## `rangauss` -/

/-- The decimal literal `1.0e-30` as written in `rangauss`. -/
def tinyLiteral : ℚ := 1 / 10 ^ 30

/-- The double denoted by the literal `1.0e-30`: `0x1.4484bfeebc2a0p-100`
(see `tinyLiteral_rounds_to_tiny`). -/
def tinyDouble : ℚ := 5708990770823840 / 2 ^ 152

/-- The `do { x1 = ranflat(); x2 = ranflat(); } while (x1 < 1.0e-30 || x2 < 1.0e-30)`
loop of `rangauss`: returns `x1`, `x2` and the state after the loop. -/
def rangaussDraw : Nat → Nat → Option (ℚ × ℚ × Nat)
  | 0, _ => none
  | fuel + 1, s =>
    let r1 := ranflat s
    let r2 := ranflat r1.1
    if r1.2 < tinyDouble ∨ r2.2 < tinyDouble then rangaussDraw fuel r2.1
    else some (r1.2, r2.2, r2.1)

/-- The static `tpi = 2.0 * 3.141592654` of `rangauss`. -/
def tpi {D : Type} (ops : FloatOps D) : D :=
  ops.mul (ops.ofRat 2) (ops.ofRat (3141592654 / 10 ^ 9))

/-- Member `rangauss()` as a function of the state word: the returned double
`sqrt(-2.0 * log(x1)) * cos(tpi * x2)` and the new state. -/
def rangauss {D : Type} (ops : FloatOps D) (fuel : Nat) (s : Nat) : Option (D × Nat) :=
  match rangaussDraw fuel s with
  | none => none
  | some (x1, x2, s') =>
    some (ops.mul (ops.sqrt (ops.mul (ops.ofRat (-2)) (ops.log (ops.ofRat x1))))
            (ops.cos (ops.mul (tpi ops) (ops.ofRat x2))), s')

/-- Member `rangauss()` on the object. -/
def ransubs.rangauss {D : Type} (ops : FloatOps D) (fuel : Nat) (r : ransubs) :
    Option (D × ransubs) :=
  (Temsim.rangauss ops fuel r.iseed).map fun p => (p.1, { r with iseed := p.2 })

/-! ## `ranPoisson` -/

/-- The function-local statics of `ranPoisson`. -/
structure PoissonStatics (D : Type) where
  lut : Int
  oldMean : D
  oldEmean : D
  alpha : D
  beta : D
  c : D
  k : D
  PI : D
  /-- Array `lnf[256]`. -/
  lnf : List D

/-- Values of the statics at program start: `lut = -1`, `oldMean = -100`,
`oldEmean = 0`, everything else zero-initialised. -/
def PoissonStatics.init {D : Type} (ops : FloatOps D) : PoissonStatics D :=
  { lut := -1, oldMean := ops.ofRat (-100), oldEmean := ops.ofRat 0,
    alpha := ops.ofRat 0, beta := ops.ofRat 0, c := ops.ofRat 0, k := ops.ofRat 0,
    PI := ops.ofRat 0, lnf := List.replicate 256 (ops.ofRat 0) }

/-- The table written by
`lnf[0] = lnf[1] = 0.0; for (i = 2; i < 256; i++) lnf[i] = lnf[i-1] + log((double)i);`
The fold step for `j` writes entry `i = j + 2`. -/
def lnfInit {D : Type} (ops : FloatOps D) : List D :=
  (List.range 254).foldl
    (fun t j => t ++ [ops.add (t.getD (j + 1) (ops.ofRat 0)) (ops.log (ops.ofRat ((j + 2 : Nat) : ℚ)))])
    [ops.ofRat 0, ops.ofRat 0]

/-- Largest value of `int`. -/
def INT_MAX : Int := 2147483647

/-- The loop `do { n = n + 1; s = s * ranflat(); } while (s >= oldEmean);` of the
small-mean branch, entered with counter `n`, product `s` and state word `st`.
Incrementing `n` past `INT_MAX` is undefined behaviour and yields no result. -/
def poissonSmallLoop {D : Type} (ops : FloatOps D) (oldEmean : D) :
    Nat → Int → D → Nat → Option (Int × Nat)
  | 0, _, _, _ => none
  | fuel + 1, n, s, st =>
    if INT_MAX ≤ n then none
    else
      let n1 := n + 1
      let r := ranflat st
      let s1 := ops.mul s (ops.ofRat r.2)
      if ops.le oldEmean s1 then poissonSmallLoop ops oldEmean fuel n1 s1 r.1
      else some (n1, r.1)

/-- The inner loop
`do { u1 = ranflat(); x = (alpha - log((1.0 - u1) / u1)) / beta; } while (x < -0.5);`
of the large-mean branch: returns `x` and the state after the loop. -/
def poissonDrawX {D : Type} (ops : FloatOps D) (alpha beta : D) :
    Nat → Nat → Option (D × Nat)
  | 0, _ => none
  | fuel + 1, st =>
    let r := ranflat st
    let u1 := ops.ofRat r.2
    let x := ops.div (ops.sub alpha (ops.log (ops.div (ops.sub (ops.ofRat 1) u1) u1))) beta
    if ops.lt x (ops.ofRat (-1 / 2)) then poissonDrawX ops alpha beta fuel r.1
    else some (x, r.1)

/-- The value `lnf0` used for candidate `n` (with `0 <= n`): the table entry for
`n < 255`, Stirling's formula otherwise. -/
def poissonLnf0 {D : Type} (ops : FloatOps D) (c : PoissonStatics D) (n : Int) : D :=
  if n < 255 then c.lnf.getD n.toNat (ops.ofRat 0)
  else
    let x := ops.ofRat (n : ℚ)
    ops.add
      (ops.sub
        (ops.add (ops.mul (ops.ofRat (1 / 2)) (ops.log (ops.mul (ops.ofRat 2) c.PI)))
          (ops.mul (ops.add x (ops.ofRat (1 / 2))) (ops.log x)))
        x)
      (ops.div (ops.ofRat 1) (ops.mul (ops.ofRat 12) x))

/-- The `while (1)` loop of the large-mean branch.  Each pass draws `x`, forms the
candidate `n = (int)(x + 0.5)`, draws `u2`, and returns `n` when `0 <= n` and
`lhs <= rhs`. -/
def poissonLargeLoop {D : Type} (ops : FloatOps D) (c : PoissonStatics D) (mean : D) :
    Nat → Nat → Option (Int × Nat)
  | 0, _ => none
  | fuel + 1, st =>
    match poissonDrawX ops c.alpha c.beta (fuel + 1) st with
    | none => none
    | some (x, st1) =>
      let n := ops.toInt (ops.add x (ops.ofRat (1 / 2)))
      let r := ranflat st1
      let u2 := ops.ofRat r.2
      let y := ops.sub c.alpha (ops.mul c.beta x)
      let temp := ops.add (ops.ofRat 1) (ops.exp y)
      let lhs := ops.add y (ops.log (ops.div u2 (ops.mul temp temp)))
      if n < 0 then poissonLargeLoop ops c mean fuel r.1
      else
        let lnf0 := poissonLnf0 ops c n
        let rhs := ops.sub (ops.add c.k (ops.mul (ops.ofRat (n : ℚ)) (ops.log mean))) lnf0
        if ops.le lhs rhs then some (n, r.1)
        else poissonLargeLoop ops c mean fuel r.1

/-- The statics after `if (lut < 0) { ... lut = +1; }`. -/
def poissonInitLut {D : Type} (ops : FloatOps D) (c : PoissonStatics D) : PoissonStatics D :=
  if c.lut < 0 then { c with lnf := lnfInit ops, lut := 1 } else c

/-- The statics after the `if (oldMean != mean)` block of the small-mean branch. -/
def poissonCacheSmall {D : Type} (ops : FloatOps D) (c : PoissonStatics D) (mean : D) :
    PoissonStatics D :=
  if ops.ne c.oldMean mean then { c with oldMean := mean, oldEmean := ops.exp (ops.neg mean) }
  else c

/-- The statics after the `if (oldMean != mean)` block of the large-mean branch. -/
def poissonCacheLarge {D : Type} (ops : FloatOps D) (c : PoissonStatics D) (mean : D) :
    PoissonStatics D :=
  if ops.ne c.oldMean mean then
    let PI := ops.mul (ops.ofRat 4) (ops.atan (ops.ofRat 1))
    let beta := ops.div PI (ops.sqrt (ops.mul (ops.ofRat 3) mean))
    let alpha := ops.mul beta mean
    let c0 := ops.sub (ops.ofRat (767 / 1000)) (ops.div (ops.ofRat (336 / 100)) mean)
    let k := ops.sub (ops.sub (ops.log c0) mean) (ops.log beta)
    { c with oldMean := mean, PI := PI, beta := beta, alpha := alpha, c := c0, k := k }
  else c

/-- Member `ranPoisson(mean)` as a function of the statics `c` and the state word
`st`: the returned `int`, the new state word and the new statics. -/
def ranPoisson {D : Type} (ops : FloatOps D) (fuel : Nat) (c : PoissonStatics D) (st : Nat)
    (mean : D) : Option (Int × Nat × PoissonStatics D) :=
  if ops.le mean (ops.ofRat 0) then some (0, st, c)
  else
    let c1 := poissonInitLut ops c
    if ops.lt mean (ops.ofRat 30) then
      let c2 := poissonCacheSmall ops c1 mean
      match poissonSmallLoop ops c2.oldEmean fuel (-1) (ops.ofRat 1) st with
      | none => none
      | some (n, st') => some (n, st', c2)
    else
      let c2 := poissonCacheLarge ops c1 mean
      match poissonLargeLoop ops c2 mean fuel st with
      | none => none
      | some (n, st') => some (n, st', c2)

/-- Member `ranPoisson(mean)` on the object. -/
def ransubs.ranPoisson {D : Type} (ops : FloatOps D) (fuel : Nat) (c : PoissonStatics D)
    (r : ransubs) (mean : D) : Option (Int × ransubs × PoissonStatics D) :=
  (Temsim.ranPoisson ops fuel c r.iseed mean).map fun p => (p.1, { r with iseed := p.2.1 }, p.2.2)

/-! ## A concrete arithmetic for running the embedding -/

/-- Partial sum `1 + x + ... + x^k / k!` of the exponential series. -/
def expSeries (x : ℚ) : Nat → ℚ
  | 0 => 1
  | k + 1 => expSeries x k + x ^ (k + 1) / ((k + 1).factorial : ℚ)

/-- Partial sum `z + z^3/3 + ... + z^(2k+1)/(2k+1)`; `log x` is twice its limit
at `z = (x - 1) / (x + 1)`. -/
def logSeries (z : ℚ) : Nat → ℚ
  | 0 => z
  | k + 1 => logSeries z k + z ^ (2 * (k + 1) + 1) / ((2 * (k + 1) + 1 : Nat) : ℚ)

/-- Newton iteration for the square root of `x`, started at `(x + 1) / 2`. -/
def sqrtNewton (x : ℚ) : Nat → ℚ
  | 0 => (x + 1) / 2
  | k + 1 => (sqrtNewton x k + x / sqrtNewton x k) / 2

/-- Partial sum of Euler's series for the arctangent. -/
def atanSeries (x : ℚ) : Nat → ℚ
  | 0 => x / (1 + x ^ 2)
  | k + 1 =>
    atanSeries x k +
      (2 ^ (2 * (k + 1)) * ((k + 1).factorial : ℚ) ^ 2 / ((2 * (k + 1) + 1).factorial : ℚ))
        * x ^ (2 * (k + 1) + 1) / (1 + x ^ 2) ^ (k + 2)

/-- Partial sum of the cosine series. -/
def cosSeries (x : ℚ) : Nat → ℚ
  | 0 => 1
  | k + 1 => cosSeries x k + (-1) ^ (k + 1) * x ^ (2 * (k + 1)) / ((2 * (k + 1)).factorial : ℚ)

/-- Exact rational arithmetic, with partial sums standing for the C library
functions.  It is used only to run the embedding on concrete inputs; on the
inputs used below every product is exact in binary64 as well. -/
def ratOps : FloatOps ℚ where
  ofRat := fun q => q
  toInt := fun q => Int.tdiv q.num (q.den : Int)
  neg := fun a => -a
  add := fun a b => a + b
  sub := fun a b => a - b
  mul := fun a b => a * b
  div := fun a b => a / b
  lt := fun a b => decide (a < b)
  le := fun a b => decide (a ≤ b)
  ne := fun a b => decide (a ≠ b)
  exp := fun x => expSeries x 12
  log := fun x => if 0 < x then 2 * logSeries ((x - 1) / (x + 1)) 12 else 0
  sqrt := fun x => if 0 ≤ x then sqrtNewton x 6 else 0
  atan := fun x => atanSeries x 12
  cos := fun x => cosSeries x 12

/-- The running product of the small-mean branch of `ranPoisson` after `j` more
draws, starting from product `s` and state word `st`. -/
def runningProduct {D : Type} (ops : FloatOps D) : D → Nat → Nat → D
  | s, _, 0 => s
  | s, st, j + 1 => runningProduct ops (ops.mul s (ops.ofRat (ranflat st).2)) (ranflat st).1 j

/-! ## `rfpix`: the transform buffer -/

/-- Product of two `int` values, reduced to 32-bit two's complement. -/
def intMul (a b : Int) : Int := (a * b + 2 ^ 31) % 2 ^ 32 - 2 ^ 31

/-- Planner flags passed to FFTW by `rfpix::init`. -/
inductive PlanFlag where
  | measure
  | estimate
  deriving DecidableEq, Repr

/-- The FFTW library as seen by `rfpix`: `W` is the state of the planner, `P` the
type of plan handles, `F` the type `float`.  A buffer argument is `none` when
the pointer does not address an allocated block.  Planning and execution may
overwrite both arrays, so each call returns their new contents. -/
structure Fftw (F P W : Type) where
  /-- Call `fftwf_init_threads()`. -/
  initThreads : W → W × Int
  /-- Call `fftwf_plan_with_nthreads(n)`. -/
  planWithNthreads : W → Int → W
  /-- Call `fftwf_plan_dft_c2r_2d(nx, ny, data, rpix, flag)`. -/
  planC2R : W → Int → Int → Option (List (F × F)) → Option (List F) → PlanFlag →
    W × P × Option (List (F × F)) × Option (List F)
  /-- Call `fftwf_plan_dft_r2c_2d(nx, ny, rpix, data, flag)`. -/
  planR2C : W → Int → Int → Option (List F) → Option (List (F × F)) → PlanFlag →
    W × P × Option (List F) × Option (List (F × F))
  /-- Call `fftwf_execute_dft_r2c(plan, rpix, data)`. -/
  execR2C : Option P → Option (List F) → Option (List (F × F)) →
    Option (List F) × Option (List (F × F))
  /-- Call `fftwf_execute_dft_c2r(plan, data, rpix)`. -/
  execC2R : Option P → Option (List (F × F)) → Option (List F) →
    Option (List (F × F)) × Option (List F)

/-- What the two `fftwf_malloc` calls of one `resize` return: `none` for `NULL`,
otherwise the (indeterminate) initial contents of the fresh block. -/
structure Alloc (F : Type) where
  data : Option (Nat → F × F)
  rpix : Option (Nat → F)

/-- Result of `fftwf_malloc(count * sizeof(T))` for an `int` element count: a
negative count converts to a `size_t` above any satisfiable request and gives
`NULL`; otherwise the allocator answers `r`. -/
def mallocList {α : Type} (count : Int) (r : Option (Nat → α)) : Option (List α) :=
  if count < 0 then none else r.map fun f => (List.range count.toNat).map f

/-- The data members of `class rfpix`.  `rpix`, `data`, `planTf`, `planTi` are
`none` while the pointer has not been given a value by the code (or is `NULL`). -/
structure rfpix (F P : Type) where
  nxl : Int
  nyl : Int
  nycl : Int
  nrxyl : Int
  initLevel : Int
  rpix : Option (List F)
  data : Option (List (F × F))
  planTf : Option P
  planTi : Option P
  sbuff : String

/-- How a member function that may call `exit(EXIT_FAILURE)` ends: `done s` is a
normal return with object state `s`, `exit s` is process termination reached
with object state `s` (after `messageRF(sbuff, 2)`). -/
inductive Outcome (α : Type) where
  | done (s : α)
  | exit (s : α)

/-- Whether the call ended in the fatal-error branch. -/
def Outcome.isExit {α : Type} : Outcome α → Bool
  | .done _ => false
  | .exit _ => true

/-- The object state at the end of the call. -/
def Outcome.state {α : Type} : Outcome α → α
  | .done s => s
  | .exit s => s

namespace rfpix

variable {F P W : Type}

/-- Member `nx()`. -/
def nx (b : rfpix F P) : Int := b.nxl

/-- Member `ny()`. -/
def ny (b : rfpix F P) : Int := b.nyl

/-- Member `resize(nx, ny)`: the returned status and the new object state.  The
blocks freed by `fftwf_free` are the ones the pointers are about to stop
addressing, so freeing changes nothing that the object can still reach. -/
def resize (b : rfpix F P) (nx ny : Int) (a : Alloc F) : Int × rfpix F P :=
  if nx ≠ b.nxl ∨ ny ≠ b.nyl then
    let nycl := Int.tdiv ny 2 + 1
    let data := mallocList (intMul nx nycl) a.data
    let rpix := mallocList (intMul nx ny) a.rpix
    let b1 : rfpix F P := { b with nxl := nx, nyl := ny, nycl := nycl, data := data, rpix := rpix }
    if data.isNone ∨ rpix.isNone then
      (-1, { b1 with sbuff := "Cannot allocate complex array memory in rfpix::resize()" })
    else (1, b1)
  else (1, b)

/-- Object state set up by the constructor before its call of `resize`. -/
def blank : rfpix F P :=
  { nxl := 0, nyl := 0, nycl := 0, nrxyl := 0, initLevel := -1, rpix := none, data := none,
    planTf := none, planTi := none, sbuff := "" }

/-- Constructor `rfpix::rfpix(int nx, int ny)`. -/
def new (nx ny : Int) (a : Alloc F) : rfpix F P :=
  if 0 < nx ∧ 0 < ny then ((blank : rfpix F P).resize nx ny a).2 else blank

/-- Member `copyInit(xx)`. -/
def copyInit (b xx : rfpix F P) : rfpix F P :=
  if b.nxl ≠ xx.nxl ∧ b.nyl ≠ xx.nyl then b
  else { b with planTf := xx.planTf, planTi := xx.planTi, initLevel := xx.initLevel }

/-- Member `fft()`. -/
def fft (lib : Fftw F P W) (b : rfpix F P) : Outcome (rfpix F P) :=
  if b.initLevel = 0 ∨ b.initLevel = 1 then
    let r := lib.execR2C b.planTf b.rpix b.data
    .done { b with rpix := r.1, data := r.2 }
  else
    .exit { b with sbuff := "error: cfpix::fft() called before init()" }

/-- One execution of `rpix[j] *= scale`; an index outside the block is left alone. -/
def scaleAt (ops : FloatOps F) (scale : F) (rp : List F) (j : Nat) : List F :=
  match rp.get? j with
  | some v => rp.set j (ops.mul v scale)
  | none => rp

/-- The inner loop `for (iy = 0; iy < nyl; iy++) rpix[j++] *= scale;` entered with
`j = ix * nyl`. -/
def scaleRow (ops : FloatOps F) (scale : F) (nyl : Int) (rp : List F) (ix : Nat) : List F :=
  (List.range nyl.toNat).foldl
    (fun acc iy => scaleAt ops scale acc ((intMul (ix : Int) nyl).toNat + iy)) rp

/-- The rescaling loops of `ifft()`. -/
def scaleAll (ops : FloatOps F) (scale : F) (nxl nyl : Int) (rp : List F) : List F :=
  (List.range nxl.toNat).foldl (fun acc ix => scaleRow ops scale nyl acc ix) rp

/-- Member `ifft()`. -/
def ifft (ops : FloatOps F) (lib : Fftw F P W) (b : rfpix F P) : Outcome (rfpix F P) :=
  if b.initLevel = 0 ∨ b.initLevel = 1 then
    let r := lib.execC2R b.planTi b.data b.rpix
    let scale := ops.div (ops.ofRat 1) (ops.ofRat ((intMul b.nxl b.nyl : Int) : ℚ))
    .done { b with data := r.1, rpix := r.2.map (scaleAll ops scale b.nxl b.nyl) }
  else
    .exit { b with sbuff := "error: rfpix::ifft() called before init()" }

/-- Member `init(mode, nthreads)`, threading the state of the FFTW planner. -/
def init (lib : Fftw F P W) (w : W) (b : rfpix F P) (mode nthreads : Int) : W × rfpix F P :=
  if mode = 0 then
    let w1 := if 1 < nthreads then lib.planWithNthreads (lib.initThreads w).1 nthreads else w
    let ri := lib.planC2R w1 b.nxl b.nyl b.data b.rpix PlanFlag.measure
    let rf := lib.planR2C ri.1 b.nxl b.nyl ri.2.2.2 ri.2.2.1 PlanFlag.measure
    (rf.1, { b with initLevel := mode, planTi := some ri.2.1, planTf := some rf.2.1,
                    rpix := rf.2.2.1, data := rf.2.2.2 })
  else if mode = 1 then
    let ri := lib.planC2R w b.nxl b.nyl b.data b.rpix PlanFlag.estimate
    let rf := lib.planR2C ri.1 b.nxl b.nyl ri.2.2.2 ri.2.2.1 PlanFlag.estimate
    (rf.1, { b with initLevel := mode, planTi := some ri.2.1, planTf := some rf.2.1,
                    rpix := rf.2.2.1, data := rf.2.2.2 })
  else (w, b)

/-- The loop `for (i = 0; i < n; i++) dst[i] = src[i];`; an index outside either
block is left alone. -/
def copyPrefix {α : Type} (n : Nat) (dst src : List α) : List α :=
  (List.range n).foldl
    (fun acc i => match src.get? i with
      | some v => acc.set i v
      | none => acc) dst

/-- The loop `for (i = 0; i < n; i++) dst[i] = v;`. -/
def fillPrefix {α : Type} (n : Nat) (v : α) (dst : List α) : List α :=
  (List.range n).foldl (fun acc i => acc.set i v) dst

/-- Member `operator=(const rfpix& m)`. -/
def assign (b m : rfpix F P) : Outcome (rfpix F P) :=
  let nxyt := intMul b.nxl b.nyl
  let nxyct := intMul b.nxl b.nycl
  if m.nxl ≠ b.nxl ∨ m.nyl ≠ b.nyl then
    .exit { b with sbuff := "rfpix operator= invoked with unequal sizes:\n"
              ++ toString b.nxl ++ " x " ++ toString b.nxl ++ " and "
              ++ toString m.nxl ++ " x " ++ toString m.nxl }
  else if 0 < b.nxl ∧ 0 < b.nyl then
    .done { b with
      data := b.data.map fun d => copyPrefix nxyct.toNat d (m.data.getD []),
      rpix := b.rpix.map fun r => copyPrefix nxyt.toNat r (m.rpix.getD []) }
  else
    .exit { b with sbuff := "bad operator=() in rfpix" }

/-- Member `operator=(const float xf)`. -/
def assignScalar (ops : FloatOps F) (b : rfpix F P) (xf : F) (a : Alloc F) : rfpix F P :=
  let nxyt := intMul b.nxl b.nyl
  let nxyct := intMul b.nxl b.nycl
  if 0 < b.nxl ∧ 0 < b.nyl then
    { b with
      data := b.data.map fun d => fillPrefix nxyct.toNat (ops.ofRat 0, ops.ofRat 0) d,
      rpix := b.rpix.map fun r => fillPrefix nxyt.toNat xf r }
  else
    let b1 := (b.resize 1 1 a).2
    { b1 with
      rpix := b1.rpix.map fun r => r.set 0 xf,
      data := b1.data.map fun d => d.set 0 (ops.ofRat 0, ops.ofRat 0) }

/-- One pass of the loop body of `findRange`:
`x = rpix[i]; if (x < rmin) rmin = x; if (x > rmax) rmax = x;`. -/
def rangeStep (ops : FloatOps F) (acc : F × F) (x : F) : F × F :=
  let rmin := if ops.lt x acc.1 then x else acc.1
  let rmax := if ops.lt acc.2 x then x else acc.2
  (rmin, rmax)

/-- Member `findRange(rmin, rmax)`: the values of the two reference arguments
after the call. -/
def findRange (ops : FloatOps F) (b : rfpix F P) (rmin rmax : F) : F × F :=
  if 0 < b.nxl ∧ 0 < b.nyl then
    match b.rpix with
    | none => (rmin, rmax)
    | some r =>
      match r.get? 0 with
      | none => (rmin, rmax)
      | some r0 => ((List.range (intMul b.nxl b.nyl).toNat).filterMap r.get?).foldl (rangeStep ops) (r0, r0)
  else (rmin, rmax)

/-- Operations applied to a buffer between its construction and a transform. -/
inductive Op (F P : Type) where
  | resize (nx ny : Int) (a : Alloc F)
  | init (mode nthreads : Int)
  | copyInit (xx : rfpix F P)
  | assignScalar (xf : F) (a : Alloc F)

/-- Effect of one operation on the planner state and the buffer. -/
def step (ops : FloatOps F) (lib : Fftw F P W) (wb : W × rfpix F P) : Op F P → W × rfpix F P
  | .resize nx ny a => (wb.1, (wb.2.resize nx ny a).2)
  | .init mode nthreads => rfpix.init lib wb.1 wb.2 mode nthreads
  | .copyInit xx => (wb.1, wb.2.copyInit xx)
  | .assignScalar xf a => (wb.1, wb.2.assignScalar ops xf a)

/-- Effect of a sequence of operations. -/
def run (ops : FloatOps F) (lib : Fftw F P W) (wb : W × rfpix F P) (l : List (Op F P)) :
    W × rfpix F P :=
  l.foldl (step ops lib) wb

/-- An operation that completes no `init` in mode 0 or 1 and adopts no plan from
an initialized buffer. -/
def Op.noInit : Op F P → Prop
  | .resize _ _ _ => True
  | .init mode _ => mode ≠ 0 ∧ mode ≠ 1
  | .copyInit xx => xx.initLevel ≠ 0 ∧ xx.initLevel ≠ 1
  | .assignScalar _ _ => True

end rfpix

/-- A stand-in for the FFTW library whose planning and execution calls leave both
arrays as they are.  It is used only to run the embedding on concrete inputs. -/
def idFftw : Fftw ℚ Unit Unit where
  initThreads := fun w => (w, 1)
  planWithNthreads := fun w _ => w
  planC2R := fun w _ _ d r _ => (w, (), d, r)
  planR2C := fun w _ _ r d _ => (w, (), r, d)
  execR2C := fun _ r d => (r, d)
  execC2R := fun _ d r => (d, r)

/-- An allocator answer in which both `fftwf_malloc` calls succeed and the fresh
blocks hold zeros. -/
def zeroAlloc : Alloc ℚ := { data := some fun _ => (0, 0), rpix := some fun _ => 0 }

/-- A 2 x 2 buffer (`nyc = 2`) that has not been initialized.  It is used only to
run the embedding on concrete inputs. -/
def buf2x2 : rfpix ℚ Unit :=
  { nxl := 2, nyl := 2, nycl := 2, nrxyl := 0, initLevel := -1,
    rpix := some [1, 2, 3, 4], data := some [(1, 0), (2, 0), (3, 0), (4, 0)],
    planTf := none, planTi := none, sbuff := "" }

/-- A second 2 x 2 buffer, initialized in mode 0, with other samples. -/
def buf2x2init : rfpix ℚ Unit :=
  { nxl := 2, nyl := 2, nycl := 2, nrxyl := 0, initLevel := 0,
    rpix := some [5, 6, 7, 8], data := some [(5, 1), (6, 1), (7, 1), (8, 1)],
    planTf := some (), planTi := some (), sbuff := "" }

/-- A 2 x 4 buffer (`nyc = 3`), initialized in mode 0. -/
def buf2x4init : rfpix ℚ Unit :=
  { nxl := 2, nyl := 4, nycl := 3, nrxyl := 0, initLevel := 0,
    rpix := some [1, 2, 3, 4, 5, 6, 7, 8],
    data := some [(1, 0), (2, 0), (3, 0), (4, 0), (5, 0), (6, 0)],
    planTf := some (), planTi := some (), sbuff := "" }

/-! ## `ranPoisson` without the cache

The definitions of this section do not come from the source: they describe the
generator the cached one is compared with, which recomputes every constant from
the mean of the call. -/

/-- The working set computed from `mean` alone: the lookup table, `exp(-mean)`, and
`PI`, `beta`, `alpha`, `c`, `k` by the formulas of the large-mean branch. -/
def poissonFresh {D : Type} (ops : FloatOps D) (mean : D) : PoissonStatics D :=
  let PI := ops.mul (ops.ofRat 4) (ops.atan (ops.ofRat 1))
  let beta := ops.div PI (ops.sqrt (ops.mul (ops.ofRat 3) mean))
  let alpha := ops.mul beta mean
  let c0 := ops.sub (ops.ofRat (767 / 1000)) (ops.div (ops.ofRat (336 / 100)) mean)
  let k := ops.sub (ops.sub (ops.log c0) mean) (ops.log beta)
  { lut := 1, oldMean := mean, oldEmean := ops.exp (ops.neg mean),
    alpha := alpha, beta := beta, c := c0, k := k, PI := PI, lnf := lnfInit ops }

/-- The uncached generator: `ranPoisson(mean)` with the constants taken from
`poissonFresh` on every call.  It returns the `int` and the new state word. -/
def ranPoissonUncached {D : Type} (ops : FloatOps D) (fuel : Nat) (st : Nat) (mean : D) :
    Option (Int × Nat) :=
  if ops.le mean (ops.ofRat 0) then some (0, st)
  else if ops.lt mean (ops.ofRat 30) then
    poissonSmallLoop ops (poissonFresh ops mean).oldEmean fuel (-1) (ops.ofRat 1) st
  else
    poissonLargeLoop ops (poissonFresh ops mean) mean fuel st

/-- A sequence of `ranPoisson` calls, one per mean of the list, threading the state
word and the statics: the list of returned values, the final state word and the
final statics. -/
def ranPoissonSeq {D : Type} (ops : FloatOps D) (fuel : Nat) :
    PoissonStatics D → Nat → List D → Option (List Int × Nat × PoissonStatics D)
  | c, st, [] => some ([], st, c)
  | c, st, mean :: rest =>
    match ranPoisson ops fuel c st mean with
    | none => none
    | some (n, st1, c1) =>
      match ranPoissonSeq ops fuel c1 st1 rest with
      | none => none
      | some (ns, st2, c2) => some (n :: ns, st2, c2)

/-- The same sequence of calls made to the uncached generator. -/
def ranPoissonUncachedSeq {D : Type} (ops : FloatOps D) (fuel : Nat) :
    Nat → List D → Option (List Int × Nat)
  | st, [] => some ([], st)
  | st, mean :: rest =>
    match ranPoissonUncached ops fuel st mean with
    | none => none
    | some (n, st1) =>
      match ranPoissonUncachedSeq ops fuel st1 rest with
      | none => none
      | some (ns, st2) => some (n :: ns, st2)

/-- The statics are not stale: the lookup table is filled once `lut` is no longer
negative, and whenever a mean that is not `<= 0` compares equal to `oldMean`, the
cached constants of its branch are the ones computed from that mean. -/
def PoissonStatics.NotStale {D : Type} (ops : FloatOps D) (c : PoissonStatics D) : Prop :=
  (¬ c.lut < 0 → c.lnf = lnfInit ops) ∧
  ∀ mean : D, ops.le mean (ops.ofRat 0) = false → ops.ne c.oldMean mean = false →
    (ops.lt mean (ops.ofRat 30) = true → c.oldEmean = (poissonFresh ops mean).oldEmean) ∧
    (ops.lt mean (ops.ofRat 30) = false →
      c.PI = (poissonFresh ops mean).PI ∧ c.beta = (poissonFresh ops mean).beta ∧
      c.alpha = (poissonFresh ops mean).alpha ∧ c.c = (poissonFresh ops mean).c ∧
      c.k = (poissonFresh ops mean).k)

/-- The rational arithmetic `ratOps` extended by one NaN value (`none`): every
operation propagates it, the comparisons `<` and `<=` are false and `!=` is true
as soon as one operand is NaN, as in IEEE arithmetic; the cast `(int)` of NaN is
taken to be `INT_MIN`.  It is used only to run the embedding on concrete
inputs. -/
def nanOps : FloatOps (Option ℚ) where
  ofRat := fun q => some q
  toInt := fun a =>
    match a with
    | some q => ratOps.toInt q
    | none => -2147483648
  neg := fun a => a.map ratOps.neg
  add := fun a b => a.bind fun x => b.map fun y => ratOps.add x y
  sub := fun a b => a.bind fun x => b.map fun y => ratOps.sub x y
  mul := fun a b => a.bind fun x => b.map fun y => ratOps.mul x y
  div := fun a b => a.bind fun x => b.map fun y => ratOps.div x y
  lt := fun a b =>
    match a, b with
    | some x, some y => decide (x < y)
    | _, _ => false
  le := fun a b =>
    match a, b with
    | some x, some y => decide (x ≤ y)
    | _, _ => false
  ne := fun a b =>
    match a, b with
    | some x, some y => decide (x ≠ y)
    | _, _ => true
  exp := fun a => a.map ratOps.exp
  log := fun a => a.map ratOps.log
  sqrt := fun a => a.map ratOps.sqrt
  atan := fun a => a.map ratOps.atan
  cos := fun a => a.map ratOps.cos

/-- A 1 x 3 buffer (`nyc = 2`) whose first real sample is NaN. -/
def buf1x3nan : rfpix (Option ℚ) Unit :=
  { nxl := 1, nyl := 3, nycl := 2, nrxyl := 0, initLevel := -1,
    rpix := some [none, some 1, some 2], data := some [(some 0, some 0), (some 0, some 0)],
    planTf := none, planTi := none, sbuff := "" }

/-- A 2 x 2 buffer (`nyc = 2`) over the arithmetic with NaN, none of whose samples
is NaN. -/
def buf2x2ordered : rfpix (Option ℚ) Unit :=
  { nxl := 2, nyl := 2, nycl := 2, nrxyl := 0, initLevel := -1,
    rpix := some [some 3, some 1, some 4, some 2],
    data := some [(some 0, some 0), (some 0, some 0), (some 0, some 0), (some 0, some 0)],
    planTf := none, planTi := none, sbuff := "" }

/-! ## Facts about the xorshift update -/

theorem xor_shiftRight_ne_zero (s k : Nat) (hk : 0 < k) (hs : s ≠ 0) :
    s ^^^ (s >>> k) ≠ 0 := by
  intro h
  rw [Nat.xor_eq_zero] at h
  have h1 : s >>> k < s := by
    rw [Nat.shiftRight_eq_div_pow]
    exact Nat.div_lt_self (Nat.pos_of_ne_zero hs) (Nat.one_lt_two_pow (Nat.pos_iff_ne_zero.mp hk))
  omega

theorem xor_shiftLeft_ne_zero (s : Nat) (hs : s ≠ 0) :
    s ^^^ ((s <<< 25) % 2 ^ 64) ≠ 0 := by
  intro h
  rw [Nat.xor_eq_zero, Nat.shiftLeft_eq] at h
  -- `s = s * 2^25 % 2^64`, so `2^64 ∣ s * (2^25 - 1)` and `s < 2^64`
  have hlt : s < 2 ^ 64 := by rw [h]; exact Nat.mod_lt _ (by norm_num)
  have hdvd : 2 ^ 64 ∣ s * (2 ^ 25 - 1) := by
    have h2 : (s * 2 ^ 25) % 2 ^ 64 = s % 2 ^ 64 := by
      rw [← h]; exact (Nat.mod_eq_of_lt hlt).symm
    have h3 : s * 2 ^ 25 = s * (2 ^ 25 - 1) + s := by
      have : (2:Nat) ^ 25 = (2 ^ 25 - 1) + 1 := by norm_num
      nth_rewrite 1 [this]
      ring
    have h4 : (s * (2 ^ 25 - 1) + s) % 2 ^ 64 = (0 + s) % 2 ^ 64 := by
      rw [← h3, h2]; simp
    have h5 := (Nat.ModEq.add_right_cancel' s h4 : s * (2 ^ 25 - 1) ≡ 0 [MOD 2 ^ 64])
    exact (Nat.modEq_zero_iff_dvd).mp h5
  have hcop : Nat.Coprime (2 ^ 64) (2 ^ 25 - 1) := by
    apply Nat.Coprime.pow_left
    norm_num
  have hs64 : 2 ^ 64 ∣ s := (Nat.Coprime.dvd_mul_right hcop).mp hdvd
  exact hs (Nat.eq_zero_of_dvd_of_lt hs64 hlt)

theorem ranflatState_ne_zero (s : Nat) (hs : s ≠ 0) : ranflatState s ≠ 0 := by
  unfold ranflatState
  exact xor_shiftRight_ne_zero _ 27 (by norm_num)
    (xor_shiftLeft_ne_zero _ (xor_shiftRight_ne_zero s 12 (by norm_num) hs))

theorem xor_lt_two_pow_64 {a b : Nat} (ha : a < 2 ^ 64) (hb : b < 2 ^ 64) :
    a ^^^ b < 2 ^ 64 := Nat.xor_lt_two_pow ha hb

theorem ranflatState_lt (s : Nat) (hs : s < 2 ^ 64) : ranflatState s < 2 ^ 64 := by
  unfold ranflatState
  have hshr : ∀ (a k : Nat), a < 2 ^ 64 → a >>> k < 2 ^ 64 := by
    intro a k ha
    rw [Nat.shiftRight_eq_div_pow]
    exact lt_of_le_of_lt (Nat.div_le_self _ _) ha
  have h1 : s ^^^ (s >>> 12) < 2 ^ 64 := xor_lt_two_pow_64 hs (hshr s 12 hs)
  have h2 : (s ^^^ (s >>> 12)) ^^^ (((s ^^^ (s >>> 12)) <<< 25) % 2 ^ 64) < 2 ^ 64 :=
    xor_lt_two_pow_64 h1 (Nat.mod_lt _ (by norm_num))
  exact xor_lt_two_pow_64 h2 (hshr _ 27 h2)

theorem ranflatState_iterate_ne_zero (s : Nat) (hs : s ≠ 0) (n : Nat) :
    ranflatState^[n] s ≠ 0 := by
  induction n with
  | zero => simpa using hs
  | succ k ih =>
    rw [Function.iterate_succ_apply']
    exact ranflatState_ne_zero _ ih

/-! ## Facts about the conversion to `double` -/

theorem scaleLiteral_rounds_to_scale : |scaleLiteral - ranflatScale| < 1 / 2 ^ 118 := by
  unfold scaleLiteral ranflatScale
  rw [abs_lt]
  constructor <;> norm_num

theorem log2_cases (w : Nat) (h1 : 2 ^ 53 ≤ w) (h2 : w < 2 ^ 64) :
    ∃ k, 53 ≤ k ∧ k ≤ 63 ∧ Nat.log2 w = k ∧ 2 ^ k ≤ w ∧ w < 2 ^ (k + 1) := by
  have hw : w ≠ 0 := by
    have : 0 < 2 ^ 53 := by norm_num
    omega
  refine ⟨Nat.log2 w, ?_, ?_, rfl, ?_, ?_⟩
  · exact (Nat.le_log2 hw).mpr h1
  · have := (Nat.log2_lt hw).mpr h2
    omega
  · exact Nat.log2_self_le hw
  · exact Nat.lt_log2_self

theorem roundToDouble_spec (w : Nat) (h0 : 0 < w) (h2 : w < 2 ^ 64) :
    0 < roundToDouble w ∧ roundToDouble w ≤ 2 ^ 64 ∧
      (roundToDouble w = 2 ^ 64 ↔ 2 ^ 64 - 1024 ≤ w) := by
  unfold roundToDouble
  by_cases h53 : w < 2 ^ 53
  · rw [if_pos h53]
    norm_num at *
    omega
  · rw [if_neg h53]
    obtain ⟨k, hk1, hk2, hk, hlo, hhi⟩ := log2_cases w (by omega) h2
    rw [hk]
    simp only [Nat.shiftRight_eq_div_pow, Nat.shiftLeft_eq]
    interval_cases k <;> norm_num at * <;> (split_ifs <;> omega)

/-- The value of `double(w)` is a 53-bit significand times a power of two, so
multiplying it by `2^-64` is exact. -/
theorem roundToDouble_representable (w : Nat) (h2 : w < 2 ^ 64) :
    ∃ m e : Nat, m ≤ 2 ^ 53 ∧ e ≤ 11 ∧ roundToDouble w = m * 2 ^ e := by
  unfold roundToDouble
  by_cases h53 : w < 2 ^ 53
  · rw [if_pos h53]
    exact ⟨w, 0, le_of_lt h53, by norm_num, by simp⟩
  · rw [if_neg h53]
    obtain ⟨k, hk1, hk2, hk, hlo, hhi⟩ := log2_cases w (by omega) h2
    rw [hk]
    simp only [Nat.shiftLeft_eq]
    have hq : w >>> (k - 52) < 2 ^ 53 := by
      rw [Nat.shiftRight_eq_div_pow, Nat.div_lt_iff_lt_mul (by positivity), ← pow_add]
      have : 53 + (k - 52) = k + 1 := by omega
      rw [this]
      exact hhi
    split_ifs
    · exact ⟨_, k - 52, le_of_lt hq, by omega, rfl⟩
    · exact ⟨_, k - 52, hq, by omega, rfl⟩
    · exact ⟨_, k - 52, le_of_lt hq, by omega, rfl⟩
    · exact ⟨_, k - 52, hq, by omega, rfl⟩

/-- Evaluation of `double(w)` once the position `k` of the leading bit is known. -/
theorem roundToDouble_eval (w k : Nat) (hk : 53 ≤ k) (h1 : 2 ^ k ≤ w) (h2 : w < 2 ^ (k + 1)) :
    roundToDouble w =
      if w % 2 ^ (k - 52) < 2 ^ (k - 52 - 1) then (w >>> (k - 52)) <<< (k - 52)
      else if 2 ^ (k - 52 - 1) < w % 2 ^ (k - 52) then (w >>> (k - 52) + 1) <<< (k - 52)
      else if (w >>> (k - 52)) % 2 = 0 then (w >>> (k - 52)) <<< (k - 52)
      else (w >>> (k - 52) + 1) <<< (k - 52) := by
  have hw : w ≠ 0 := by
    have : 0 < 2 ^ k := by positivity
    omega
  have hlog : Nat.log2 w = k := by
    have ha : k ≤ Nat.log2 w := (Nat.le_log2 hw).mpr h1
    have hb : Nat.log2 w < k + 1 := (Nat.log2_lt hw).mpr h2
    omega
  have h53 : ¬ (w < 2 ^ 53) := by
    have : 2 ^ 53 ≤ 2 ^ k := Nat.pow_le_pow_right (by norm_num) hk
    omega
  unfold roundToDouble
  rw [if_neg h53, hlog]

theorem ranflatWord_pos (s : Nat) (hs : s ≠ 0) (hlt : s < 2 ^ 64) : 0 < ranflatWord s := by
  unfold ranflatWord
  rw [Nat.pos_iff_ne_zero]
  intro h
  have hdvd : 2 ^ 64 ∣ 2685821657736338717 * s := Nat.dvd_of_mod_eq_zero h
  have hcop : Nat.Coprime (2 ^ 64) 2685821657736338717 := by
    apply Nat.Coprime.pow_left
    norm_num
  exact hs (Nat.eq_zero_of_dvd_of_lt ((Nat.Coprime.dvd_mul_left hcop).mp hdvd) hlt)

theorem ranflatWord_lt (s : Nat) : ranflatWord s < 2 ^ 64 :=
  Nat.mod_lt _ (by norm_num)

/-- Range of the value returned by `ranflat` in terms of the updated state. -/
theorem ranflatValue_range (s : Nat) (hs : s ≠ 0) (hlt : s < 2 ^ 64) :
    1 / 2 ^ 64 ≤ ranflatValue s ∧ ranflatValue s ≤ 1 ∧
      (ranflatValue s = 1 ↔ 2 ^ 64 - 1024 ≤ ranflatWord s) := by
  obtain ⟨hpos, hle, hiff⟩ :=
    roundToDouble_spec (ranflatWord s) (ranflatWord_pos s hs hlt) (ranflatWord_lt s)
  unfold ranflatValue ranflatScale
  have hposQ : (1 : ℚ) ≤ (roundToDouble (ranflatWord s) : ℚ) := by exact_mod_cast hpos
  have hleQ : (roundToDouble (ranflatWord s) : ℚ) ≤ 2 ^ 64 := by exact_mod_cast hle
  refine ⟨?_, ?_, ?_⟩
  · rw [div_mul_eq_mul_div, one_mul]
    exact div_le_div_of_nonneg_right hposQ (by positivity)
  · rw [div_mul_eq_mul_div, one_mul, div_le_one (by positivity)]
    exact hleQ
  · rw [← hiff, div_mul_eq_mul_div, one_mul, div_eq_one_iff_eq (by positivity)]
    exact_mod_cast Iff.rfl

theorem tinyLiteral_rounds_to_tiny : |tinyLiteral - tinyDouble| < 1 / 2 ^ 153 := by
  unfold tinyLiteral tinyDouble
  rw [abs_lt]
  constructor <;> norm_num

theorem tinyDouble_lt_ranflatValue (s : Nat) (hs : s ≠ 0) (hlt : s < 2 ^ 64) :
    ¬ (ranflatValue s < tinyDouble) := by
  have h := (ranflatValue_range s hs hlt).1
  have ht : tinyDouble < 1 / 2 ^ 64 := by
    unfold tinyDouble
    norm_num
  exact not_lt.mpr (le_trans (le_of_lt ht) h)

theorem PoissonStatics.init_oldMean {D : Type} (ops : FloatOps D) :
    (PoissonStatics.init ops).oldMean = ops.ofRat (-100) := rfl

/-- The first draw from state word 1. -/
theorem ranflat_one : ranflat 1 = (33554433, 5059074507037495 / 18014398509481984) := by
  have hst : ranflatState 1 = 33554433 := by decide
  have hw : ranflatWord 33554433 = 5180492295206395165 := by decide
  have hd : roundToDouble 5180492295206395165 = 5180492295206394880 := by
    rw [roundToDouble_eval 5180492295206395165 62 (by norm_num) (by norm_num) (by norm_num)]
    decide
  show (ranflatState 1, ranflatValue (ranflatState 1)) = _
  rw [hst]
  unfold ranflatValue ranflatScale
  rw [hw, hd]
  norm_num

/-! ## Facts about the loops of `rangauss` and `ranPoisson` -/

theorem rangaussDraw_once (s : Nat) (hs : s ≠ 0) (hlt : s < 2 ^ 64) (fuel : Nat) :
    rangaussDraw (fuel + 1) s =
      some ((ranflat s).2, (ranflat (ranflat s).1).2, (ranflat (ranflat s).1).1) := by
  have h1 : ¬ ((ranflat s).2 < tinyDouble) :=
    tinyDouble_lt_ranflatValue _ (ranflatState_ne_zero s hs) (ranflatState_lt s hlt)
  have h2 : ¬ ((ranflat (ranflat s).1).2 < tinyDouble) :=
    tinyDouble_lt_ranflatValue _
      (ranflatState_ne_zero _ (ranflatState_ne_zero s hs))
      (ranflatState_lt _ (ranflatState_lt s hlt))
  simp only [rangaussDraw]
  rw [if_neg (by tauto)]

theorem poissonSmallLoop_eq {D : Type} (ops : FloatOps D) (thr : D) (m : Nat) :
    ∀ (fuel : Nat) (n0 : Int) (s0 : D) (st : Nat),
      (∀ j, 1 ≤ j → j ≤ m → ops.le thr (runningProduct ops s0 st j) = true) →
      ops.le thr (runningProduct ops s0 st (m + 1)) = false →
      m + 1 ≤ fuel → n0 + (m : Int) + 1 ≤ INT_MAX →
      poissonSmallLoop ops thr fuel n0 s0 st = some (n0 + (m : Int) + 1, ranflatState^[m + 1] st) := by
  induction m with
  | zero =>
    intro fuel n0 s0 st _ hfail hfuel hmax
    obtain ⟨f, rfl⟩ : ∃ f, fuel = f + 1 := ⟨fuel - 1, by omega⟩
    have hn : ¬ (INT_MAX ≤ n0) := by
      simp only [Nat.cast_zero, add_zero] at hmax
      omega
    simp only [runningProduct] at hfail
    simp only [poissonSmallLoop, if_neg hn, hfail]
    simp [ranflat]
  | succ k ih =>
    intro fuel n0 s0 st hpass hfail hfuel hmax
    obtain ⟨f, rfl⟩ : ∃ f, fuel = f + 1 := ⟨fuel - 1, by omega⟩
    have hn : ¬ (INT_MAX ≤ n0) := by
      push_cast at hmax
      omega
    have h1 : ops.le thr (ops.mul s0 (ops.ofRat (ranflat st).2)) = true := by
      have := hpass 1 (le_refl 1) (by omega)
      simpa only [runningProduct] using this
    have hrec := ih f (n0 + 1) (ops.mul s0 (ops.ofRat (ranflat st).2)) (ranflat st).1
      (fun j hj1 hjk => by
        have := hpass (j + 1) (by omega) (by omega)
        simpa only [runningProduct] using this)
      (by simpa only [runningProduct] using hfail)
      (by omega)
      (by push_cast at hmax ⊢; omega)
    simp only [poissonSmallLoop, if_neg hn, h1, if_true]
    rw [hrec]
    have hst : ranflatState^[k + 1] (ranflat st).1 = ranflatState^[k + 1 + 1] st := by
      rw [Function.iterate_succ_apply ranflatState (k + 1) st]
      rfl
    rw [hst]
    congr 2
    push_cast
    ring

theorem poissonSmallLoop_gt {D : Type} (ops : FloatOps D) (thr : D) :
    ∀ (fuel : Nat) (n0 : Int) (s0 : D) (st : Nat) (r : Int × Nat),
      poissonSmallLoop ops thr fuel n0 s0 st = some r → n0 < r.1 := by
  intro fuel
  induction fuel with
  | zero => intro n0 s0 st r h; simp [poissonSmallLoop] at h
  | succ f ih =>
    intro n0 s0 st r h
    simp only [poissonSmallLoop] at h
    split_ifs at h with h1 h2
    · have := ih _ _ _ _ h
      omega
    · simp only [Option.some.injEq] at h
      rw [← h]
      simp

theorem poissonDrawX_exit {D : Type} (ops : FloatOps D) (alpha beta : D) :
    ∀ (fuel st : Nat) (x : D) (st' : Nat),
      poissonDrawX ops alpha beta fuel st = some (x, st') →
      ops.lt x (ops.ofRat (-1 / 2)) = false := by
  intro fuel
  induction fuel with
  | zero => intro st x st' h; simp [poissonDrawX] at h
  | succ f ih =>
    intro st x st' h
    simp only [poissonDrawX] at h
    split_ifs at h with h1
    · exact ih _ _ _ h
    · simp only [Option.some.injEq, Prod.mk.injEq] at h
      rw [← h.1]
      simpa using h1

theorem poissonLargeLoop_accept {D : Type} (ops : FloatOps D) (c : PoissonStatics D) (mean : D) :
    ∀ (fuel st : Nat) (r : Int × Nat),
      poissonLargeLoop ops c mean fuel st = some r →
      0 ≤ r.1 ∧ ∃ x : D, ops.lt x (ops.ofRat (-1 / 2)) = false ∧
        r.1 = ops.toInt (ops.add x (ops.ofRat (1 / 2))) := by
  intro fuel
  induction fuel with
  | zero => intro st r h; simp [poissonLargeLoop] at h
  | succ f ih =>
    intro st r h
    simp only [poissonLargeLoop] at h
    cases hx : poissonDrawX ops c.alpha c.beta (f + 1) st with
    | none => simp [hx] at h
    | some p =>
      obtain ⟨x, st1⟩ := p
      simp only [hx] at h
      split_ifs at h with h1 h2
      · exact ih _ _ h
      · simp only [Option.some.injEq] at h
        rw [← h]
        exact ⟨by simpa using h1, x, poissonDrawX_exit ops _ _ _ _ _ _ hx, rfl⟩
      · exact ih _ _ h

theorem ranPoisson_small_eq {D : Type} (ops : FloatOps D) (c : PoissonStatics D) (st : Nat)
    (mean : D) (n fuel : Nat)
    (h0 : ops.le mean (ops.ofRat 0) = false) (h30 : ops.lt mean (ops.ofRat 30) = true)
    (hpass : ∀ j, 1 ≤ j → j ≤ n →
      ops.le (poissonCacheSmall ops (poissonInitLut ops c) mean).oldEmean
        (runningProduct ops (ops.ofRat 1) st j) = true)
    (hfail : ops.le (poissonCacheSmall ops (poissonInitLut ops c) mean).oldEmean
        (runningProduct ops (ops.ofRat 1) st (n + 1)) = false)
    (hfuel : n + 1 ≤ fuel) (hmax : (n : Int) ≤ INT_MAX) :
    ranPoisson ops fuel c st mean =
      some ((n : Int), ranflatState^[n + 1] st,
        poissonCacheSmall ops (poissonInitLut ops c) mean) := by
  have hloop := poissonSmallLoop_eq ops _ n fuel (-1) (ops.ofRat 1) st hpass hfail hfuel
    (by omega)
  simp only [ranPoisson, h0, h30, if_true, hloop]
  simp

theorem poissonCacheSmall_oldEmean {D : Type} (ops : FloatOps D) (c : PoissonStatics D)
    (mean : D) (hc : ops.ne c.oldMean mean = false → c.oldEmean = ops.exp (ops.neg mean)) :
    (poissonCacheSmall ops (poissonInitLut ops c) mean).oldEmean = ops.exp (ops.neg mean) := by
  unfold poissonCacheSmall poissonInitLut
  by_cases hl : c.lut < 0 <;> by_cases hne : ops.ne c.oldMean mean = true <;>
    simp [hl, hne] <;> exact hc (by simpa using hne)

/-- With the rational arithmetic, the first uniform drawn from state word 1 is
already below `exp(-1)`: the loop test of the small-mean branch fails after one
draw. -/
theorem ranPoisson_small_first_draw_below :
    ratOps.le (ratOps.exp (ratOps.neg 1)) (runningProduct ratOps (ratOps.ofRat 1) 1 (0 + 1))
      = false := by
  simp only [runningProduct, ranflat_one]
  simp only [ratOps, expSeries, Nat.factorial]
  norm_num

/-- The call `ranPoisson(1.0)` from state word 1 with the statics as at program
start: it returns 0 and leaves the state word 33554433. -/
theorem ranPoisson_mean_one_state_one :
    ranPoisson ratOps 1 (PoissonStatics.init ratOps) 1 1 =
      some (0, 33554433,
        poissonCacheSmall ratOps (poissonInitLut ratOps (PoissonStatics.init ratOps)) 1) := by
  have hst : ranflatState 1 = 33554433 := by decide
  have hthr : (poissonCacheSmall ratOps (poissonInitLut ratOps (PoissonStatics.init ratOps)) 1).oldEmean
      = ratOps.exp (ratOps.neg 1) :=
    poissonCacheSmall_oldEmean ratOps _ 1
      (fun h => by norm_num [PoissonStatics.init_oldMean, ratOps] at h)
  have h := ranPoisson_small_eq ratOps (PoissonStatics.init ratOps) 1 1 0 1
    (by simp [ratOps]) (by simp [ratOps])
    (fun j h1 h2 => absurd h1 (by omega))
    (by rw [hthr]; exact ranPoisson_small_first_draw_below)
    (le_refl _) (by simp [INT_MAX])
  rw [h]
  simp [hst]

/-- Unless the seed is 0 and the clock value (as a `long`) is 0, the constructor
leaves a non-zero 64-bit state word. -/
theorem ransubs_new_iseed_ne_zero (iseed0 : Nat) (clock : Int)
    (h : iseed0 ≠ 0 ∨ toLong clock ≠ 0) : (ransubs.new iseed0 clock).iseed ≠ 0 := by
  unfold ransubs.new
  by_cases h0 : iseed0 = 0
  · have hc : toLong clock ≠ 0 := by tauto
    rw [if_pos h0]
    by_cases h1 : toLong clock = -1
    · simp only [h1, if_true]
      decide
    · simp only [h1, if_false]
      have hr : -2 ^ 63 ≤ toLong clock ∧ toLong clock < 2 ^ 63 := by
        unfold toLong
        omega
      unfold toU64
      omega
  · rw [if_neg h0]
    exact h0

/-! ## Facts about `rfpix` -/

namespace rfpix

variable {F P W : Type}

theorem resize_initLevel (b : rfpix F P) (nx ny : Int) (a : Alloc F) :
    (b.resize nx ny a).2.initLevel = b.initLevel ∧
      (b.resize nx ny a).2.planTf = b.planTf ∧ (b.resize nx ny a).2.planTi = b.planTi := by
  unfold resize
  by_cases h1 : nx ≠ b.nxl ∨ ny ≠ b.nyl
  · rw [if_pos h1]
    by_cases h2 : (mallocList (intMul nx (Int.tdiv ny 2 + 1)) a.data).isNone = true ∨
        (mallocList (intMul nx ny) a.rpix).isNone = true
    · rw [if_pos h2]
      exact ⟨rfl, rfl, rfl⟩
    · rw [if_neg h2]
      exact ⟨rfl, rfl, rfl⟩
  · rw [if_neg h1]
    exact ⟨rfl, rfl, rfl⟩

theorem resize_same_dims (b : rfpix F P) (a : Alloc F) :
    b.resize b.nxl b.nyl a = (1, b) := by
  simp [resize]

theorem new_initLevel (nx ny : Int) (a : Alloc F) :
    (new nx ny a : rfpix F P).initLevel = -1 := by
  unfold new
  split_ifs
  · rw [(resize_initLevel _ _ _ _).1]; rfl
  · rfl

theorem assignScalar_initLevel (ops : FloatOps F) (b : rfpix F P) (xf : F) (a : Alloc F) :
    (b.assignScalar ops xf a).initLevel = b.initLevel := by
  unfold assignScalar
  split_ifs
  · rfl
  · exact (resize_initLevel b 1 1 a).1

theorem step_noInit (ops : FloatOps F) (lib : Fftw F P W) (wb : W × rfpix F P) (op : Op F P)
    (hop : op.noInit) (h : wb.2.initLevel ≠ 0 ∧ wb.2.initLevel ≠ 1) :
    (step ops lib wb op).2.initLevel ≠ 0 ∧ (step ops lib wb op).2.initLevel ≠ 1 := by
  cases op with
  | resize nx ny a =>
    simp only [step]
    rw [(resize_initLevel _ _ _ _).1]
    exact h
  | init mode nthreads =>
    simp only [Op.noInit] at hop
    simp only [step, rfpix.init, if_neg hop.1, if_neg hop.2]
    exact h
  | copyInit xx =>
    simp only [Op.noInit] at hop
    simp only [step, copyInit]
    split_ifs
    · exact h
    · exact hop
  | assignScalar xf a =>
    simp only [step]
    rw [assignScalar_initLevel]
    exact h

theorem run_noInit (ops : FloatOps F) (lib : Fftw F P W) (l : List (Op F P)) :
    ∀ (wb : W × rfpix F P), (∀ op ∈ l, op.noInit) →
      (wb.2.initLevel ≠ 0 ∧ wb.2.initLevel ≠ 1) →
      (run ops lib wb l).2.initLevel ≠ 0 ∧ (run ops lib wb l).2.initLevel ≠ 1 := by
  induction l with
  | nil => intro wb _ h; exact h
  | cons op tl ih =>
    intro wb hl h
    simp only [run, List.foldl_cons]
    exact ih (step ops lib wb op) (fun o ho => hl o (List.mem_cons_of_mem _ ho))
      (step_noInit ops lib wb op (hl op (List.mem_cons_self _ _)) h)

theorem fft_uninit (lib : Fftw F P W) (b : rfpix F P) (h : b.initLevel ≠ 0 ∧ b.initLevel ≠ 1) :
    fft lib b = .exit { b with sbuff := "error: cfpix::fft() called before init()" } := by
  unfold fft
  rw [if_neg (by tauto)]

theorem ifft_uninit (ops : FloatOps F) (lib : Fftw F P W) (b : rfpix F P)
    (h : b.initLevel ≠ 0 ∧ b.initLevel ≠ 1) :
    ifft ops lib b = .exit { b with sbuff := "error: rfpix::ifft() called before init()" } := by
  unfold ifft
  rw [if_neg (by tauto)]

theorem intMul_eq (a b : Int) (h1 : -2 ^ 31 ≤ a * b) (h2 : a * b < 2 ^ 31) : intMul a b = a * b := by
  unfold intMul
  generalize a * b = p at *
  omega

theorem mallocList_some {α : Type} (count : Int) (r : Option (Nat → α)) (l : List α)
    (h : mallocList count r = some l) : 0 ≤ count ∧ l.length = count.toNat := by
  unfold mallocList at h
  split_ifs at h with hc
  cases r with
  | none => simp at h
  | some f =>
    simp only [Option.map_some', Option.some.injEq] at h
    rw [← h]
    exact ⟨by omega, by simp⟩

/-- After an allocation failure the dimensions stay set, so a second `resize` to
the same dimensions returns `+1` while both pointers are still `NULL`. -/
theorem resize_retry_after_failure :
    ((blank : rfpix ℚ Unit).resize 4 4 { data := none, rpix := none }).1 = -1 ∧
      ((((blank : rfpix ℚ Unit).resize 4 4 { data := none, rpix := none }).2.resize 4 4
          zeroAlloc).1 = 1 ∧
        (((blank : rfpix ℚ Unit).resize 4 4 { data := none, rpix := none }).2.resize 4 4
          zeroAlloc).2.data = none ∧
        (((blank : rfpix ℚ Unit).resize 4 4 { data := none, rpix := none }).2.resize 4 4
          zeroAlloc).2.rpix = none) := by
  simp [resize, blank, mallocList, intMul]

end rfpix

/-! ## Theorems: seed initialisation and the uniform generator -/

/-- C1: at the concrete input "seed 0, clock value 0" the constructor leaves the
state word equal to zero (and reports a good initialisation), and from that
state `ranflat` never moves: the state stays zero and the value returned is 0. -/
theorem ransubs_new_zero_clock_zero :
    (ransubs.new 0 0).iseed = 0 ∧ (ransubs.new 0 0).initOK = 1 ∧
      ranflat (ransubs.new 0 0).iseed = (0, 0) := by
  refine ⟨by decide, by decide, ?_⟩
  have h : (ransubs.new 0 0).iseed = 0 := by decide
  rw [h]
  simp [ranflat, ranflatState, ranflatValue, ranflatWord, roundToDouble]

/-- C2: one `ranflat` update maps every non-zero 64-bit state to a non-zero
64-bit state, and so does any number of updates. -/
theorem ranflat_state_never_zero (s : Nat) (hs : s ≠ 0) (hlt : s < 2 ^ 64) :
    (ranflat s).1 ≠ 0 ∧ (ranflat s).1 < 2 ^ 64 ∧
      ∀ n : Nat, (fun t => (ranflat t).1)^[n] s ≠ 0 ∧ (fun t => (ranflat t).1)^[n] s < 2 ^ 64 := by
  have hfun : (fun t => (ranflat t).1) = ranflatState := rfl
  refine ⟨ranflatState_ne_zero s hs, ranflatState_lt s hlt, ?_⟩
  intro n
  rw [hfun]
  refine ⟨ranflatState_iterate_ne_zero s hs n, ?_⟩
  induction n with
  | zero => simpa using hlt
  | succ k ih =>
    rw [Function.iterate_succ_apply']
    exact ranflatState_lt _ ih

/-- Witness for C2 at state 1. -/
theorem ranflat_state_never_zero_witness :
    (ranflat 1).1 ≠ 0 ∧ (ranflat 1).1 < 2 ^ 64 ∧
      ∀ n : Nat, (fun t => (ranflat t).1)^[n] 1 ≠ 0 ∧ (fun t => (ranflat t).1)^[n] 1 < 2 ^ 64 :=
  ranflat_state_never_zero 1 (by decide) (by norm_num)

/-- C3 (as the code behaves): for every non-zero 64-bit state the value returned
by `ranflat` is strictly positive (at least `2^-64`, the last conjunct) and at
most 1, and it is exactly 1 precisely when the scrambled word `w` is at least
`2^64 - 1024`, the words that `double(w)` rounds up to `2^64`. -/
theorem ranflat_value_range (s : Nat) (hs : s ≠ 0) (hlt : s < 2 ^ 64) :
    0 < (ranflat s).2 ∧ (ranflat s).2 ≤ 1 ∧
      ((ranflat s).2 = 1 ↔ 2 ^ 64 - 1024 ≤ ranflatWord (ranflat s).1) ∧
      1 / 2 ^ 64 ≤ (ranflat s).2 := by
  obtain ⟨h1, h2, h3⟩ :=
    ranflatValue_range (ranflatState s) (ranflatState_ne_zero s hs) (ranflatState_lt s hlt)
  exact ⟨lt_of_lt_of_le (by positivity) h1, h2, h3, h1⟩

/-- Witness for C3 at state 1. -/
theorem ranflat_value_range_witness :
    0 < (ranflat 1).2 ∧ (ranflat 1).2 ≤ 1 ∧
      ((ranflat 1).2 = 1 ↔ 2 ^ 64 - 1024 ≤ ranflatWord (ranflat 1).1) ∧
      1 / 2 ^ 64 ≤ (ranflat 1).2 :=
  ranflat_value_range 1 (by decide) (by norm_num)

/-- C3 fails as stated: from the non-zero state 12165231662994148584 the updated
state is 12031615345788793547, the scrambled word is `2^64 - 1`, `double(w)` is
`2^64`, and `ranflat` returns exactly 1, which is not strictly below 1. -/
theorem ranflat_value_not_lt_one :
    (12165231662994148584 : Nat) ≠ 0 ∧ 12165231662994148584 < 2 ^ 64 ∧
      (ranflat 12165231662994148584).1 = 12031615345788793547 ∧
      ranflatWord (ranflat 12165231662994148584).1 = 2 ^ 64 - 1 ∧
      (ranflat 12165231662994148584).2 = 1 ∧
      ¬ ((ranflat 12165231662994148584).2 < 1) := by
  have hst : (ranflat 12165231662994148584).1 = 12031615345788793547 := by decide
  have hw : ranflatWord 12031615345788793547 = 2 ^ 64 - 1 := by decide
  have hd : roundToDouble (2 ^ 64 - 1) = 2 ^ 64 :=
    (roundToDouble_spec (2 ^ 64 - 1) (by norm_num) (by norm_num)).2.2.mpr (by norm_num)
  have hv : (ranflat 12165231662994148584).2 = 1 := by
    show ranflatValue (ranflat 12165231662994148584).1 = 1
    rw [hst]
    unfold ranflatValue ranflatScale
    rw [hw, hd]
    norm_num
  refine ⟨by decide, by norm_num, hst, ?_, hv, ?_⟩
  · rw [hst]; exact hw
  · rw [hv]; exact lt_irrefl 1

/-! ## Theorems: `ranPoisson` and `rangauss` -/

/-- C4: for every mean with `mean <= 0`, every generator state and every value of
the statics, `ranPoisson(mean)` returns 0 and leaves the state word (and the
statics) unchanged: no uniform is drawn.  No fuel is needed. -/
theorem ranPoisson_nonpositive_mean {D : Type} (ops : FloatOps D) (fuel : Nat)
    (c : PoissonStatics D) (st : Nat) (mean : D) (h : ops.le mean (ops.ofRat 0) = true) :
    ranPoisson ops fuel c st mean = some (0, st, c) := by
  simp [ranPoisson, h]

/-- Witness for C4: mean `-1`, state word 1, statics as at program start. -/
theorem ranPoisson_nonpositive_mean_witness :
    ratOps.le (-1) (ratOps.ofRat 0) = true ∧
      ranPoisson ratOps 0 (PoissonStatics.init ratOps) 1 (-1) =
        some (0, 1, PoissonStatics.init ratOps) :=
  ⟨by simp [ratOps],
   ranPoisson_nonpositive_mean ratOps 0 (PoissonStatics.init ratOps) 1 (-1) (by simp [ratOps])⟩

/-- C5 (as the code behaves): for `0 < mean < 30`, if the running product (starting
at 1, multiplied by one fresh `ranflat` value per draw) stays `>= exp(-mean)`
after each of the first `n` draws and fails that test after draw `n + 1`, then
`ranPoisson(mean)` returns `n`, one less than the `n + 1` draws it consumed, and
leaves the state word advanced by exactly `n + 1` updates.  The statics are
assumed consistent: a cached `oldEmean` belongs to the cached `oldMean`. -/
theorem ranPoisson_small_returns_draws_minus_one {D : Type} (ops : FloatOps D)
    (c : PoissonStatics D) (st : Nat) (mean : D) (n fuel : Nat)
    (h0 : ops.le mean (ops.ofRat 0) = false) (h30 : ops.lt mean (ops.ofRat 30) = true)
    (hc : ops.ne c.oldMean mean = false → c.oldEmean = ops.exp (ops.neg mean))
    (hpass : ∀ j, 1 ≤ j → j ≤ n →
      ops.le (ops.exp (ops.neg mean)) (runningProduct ops (ops.ofRat 1) st j) = true)
    (hfail : ops.le (ops.exp (ops.neg mean)) (runningProduct ops (ops.ofRat 1) st (n + 1)) = false)
    (hfuel : n + 1 ≤ fuel) (hmax : (n : Int) ≤ INT_MAX) :
    ranPoisson ops fuel c st mean =
      some ((n : Int), ranflatState^[n + 1] st,
        poissonCacheSmall ops (poissonInitLut ops c) mean) := by
  have hthr := poissonCacheSmall_oldEmean ops c mean hc
  exact ranPoisson_small_eq ops c st mean n fuel h0 h30
    (by rw [hthr]; exact hpass) (by rw [hthr]; exact hfail) hfuel hmax

/-- Witness for C5: mean 1, state word 1, one unit of fuel; the call returns 0
after one draw. -/
theorem ranPoisson_small_returns_draws_minus_one_witness :
    ranPoisson ratOps 1 (PoissonStatics.init ratOps) 1 1 =
      some (((0 : Nat) : Int), ranflatState^[0 + 1] 1,
        poissonCacheSmall ratOps (poissonInitLut ratOps (PoissonStatics.init ratOps)) 1) :=
  ranPoisson_small_returns_draws_minus_one ratOps (PoissonStatics.init ratOps) 1 1 0 1
    (by simp [ratOps]) (by simp [ratOps])
    (fun h => by norm_num [PoissonStatics.init_oldMean, ratOps] at h)
    (fun j h1 h2 => absurd h1 (by omega))
    ranPoisson_small_first_draw_below
    (le_refl _) (by simp [INT_MAX])

/-- C5 fails as stated: with mean 1 and state word 1 the call consumes exactly one
uniform draw (the state word becomes 33554433, the state after one update, which
differs from the initial one) and the running product was multiplied once, yet
the value returned is 0, not 1. -/
theorem ranPoisson_small_not_draw_count :
    ∃ c', ranPoisson ratOps 1 (PoissonStatics.init ratOps) 1 1 = some (0, 33554433, c') ∧
      (33554433 : Nat) = ranflatState^[1] 1 ∧ (33554433 : Nat) ≠ ranflatState^[0] 1 ∧
      (0 : Int) ≠ 1 := by
  have hst : ranflatState 1 = 33554433 := by decide
  refine ⟨poissonCacheSmall ratOps (poissonInitLut ratOps (PoissonStatics.init ratOps)) 1,
    ranPoisson_mean_one_state_one, ?_, ?_, by decide⟩
  · simp [hst]
  · simp

/-- C6: whenever `ranPoisson(mean)` returns, the value `n` it returns satisfies
`n >= 0`; and in the large-mean branch (`mean <= 0` false, `mean < 30` false) the
accepted candidate is `n = (int)(x + 0.5)` for an `x` that left the redraw loop,
that is with `x < -0.5` false. -/
theorem ranPoisson_nonneg {D : Type} (ops : FloatOps D) (fuel : Nat) (c : PoissonStatics D)
    (st : Nat) (mean : D) (n : Int) (st' : Nat) (c' : PoissonStatics D)
    (h : ranPoisson ops fuel c st mean = some (n, st', c')) :
    0 ≤ n ∧
      (ops.le mean (ops.ofRat 0) = false → ops.lt mean (ops.ofRat 30) = false →
        ∃ x : D, ops.lt x (ops.ofRat (-1 / 2)) = false ∧
          n = ops.toInt (ops.add x (ops.ofRat (1 / 2)))) := by
  unfold ranPoisson at h
  by_cases h0 : ops.le mean (ops.ofRat 0) = true
  · simp only [h0, if_true, Option.some.injEq, Prod.mk.injEq] at h
    exact ⟨by omega, fun hf => by simp [h0] at hf⟩
  · simp only [h0] at h
    by_cases h30 : ops.lt mean (ops.ofRat 30) = true
    · simp only [h30, if_true] at h
      cases hl : poissonSmallLoop ops
          (poissonCacheSmall ops (poissonInitLut ops c) mean).oldEmean fuel (-1) (ops.ofRat 1) st with
      | none => simp [hl] at h
      | some r =>
        simp only [hl, Bool.false_eq_true, if_false, Option.some.injEq, Prod.mk.injEq] at h
        have := poissonSmallLoop_gt ops _ _ _ _ _ _ hl
        refine ⟨by omega, fun _ hf => by simp [h30] at hf⟩
    · simp only [h30] at h
      cases hl : poissonLargeLoop ops (poissonCacheLarge ops (poissonInitLut ops c) mean) mean fuel st with
      | none => simp [hl] at h
      | some r =>
        simp only [hl, Bool.false_eq_true, if_false, Option.some.injEq, Prod.mk.injEq] at h
        obtain ⟨hr0, x, hx1, hx2⟩ := poissonLargeLoop_accept ops _ _ _ _ _ hl
        rw [← h.1]
        exact ⟨hr0, fun _ _ => ⟨x, hx1, hx2⟩⟩

/-- Witness for C6: the call `ranPoisson(1.0)` from state word 1 returns 0. -/
theorem ranPoisson_nonneg_witness :
    ranPoisson ratOps 1 (PoissonStatics.init ratOps) 1 1 =
        some (0, 33554433,
          poissonCacheSmall ratOps (poissonInitLut ratOps (PoissonStatics.init ratOps)) 1) ∧
      (0 : Int) ≤ 0 :=
  ⟨ranPoisson_mean_one_state_one,
   (ranPoisson_nonneg ratOps 1 (PoissonStatics.init ratOps) 1 1 0 33554433
      (poissonCacheSmall ratOps (poissonInitLut ratOps (PoissonStatics.init ratOps)) 1)
      ranPoisson_mean_one_state_one).1⟩

/-- C7: for every non-zero 64-bit state, `rangauss` returns with one unit of fuel
(the redraw loop body runs exactly once), with any larger fuel the result is the
same, and the state word is advanced by exactly two `ranflat` updates; the value
is `sqrt(-2.0 * log(x1)) * cos(tpi * x2)` for the two uniforms drawn. -/
theorem rangauss_two_draws {D : Type} (ops : FloatOps D) (s : Nat) (hs : s ≠ 0)
    (hlt : s < 2 ^ 64) (fuel : Nat) :
    rangauss ops (fuel + 1) s =
        some (ops.mul (ops.sqrt (ops.mul (ops.ofRat (-2)) (ops.log (ops.ofRat (ranflat s).2))))
              (ops.cos (ops.mul (tpi ops) (ops.ofRat (ranflat (ranflat s).1).2))),
            ranflatState (ranflatState s)) ∧
      rangaussDraw 1 s =
        some ((ranflat s).2, (ranflat (ranflat s).1).2, ranflatState^[2] s) := by
  constructor
  · unfold rangauss
    rw [rangaussDraw_once s hs hlt fuel]
    rfl
  · rw [rangaussDraw_once s hs hlt 0]
    rfl

/-- Witness for C7 at state word 1 and the rational arithmetic. -/
theorem rangauss_two_draws_witness :
    rangauss ratOps (0 + 1) 1 =
        some (ratOps.mul (ratOps.sqrt (ratOps.mul (ratOps.ofRat (-2)) (ratOps.log (ratOps.ofRat (ranflat 1).2))))
              (ratOps.cos (ratOps.mul (tpi ratOps) (ratOps.ofRat (ranflat (ranflat 1).1).2))),
            ranflatState (ranflatState 1)) ∧
      rangaussDraw 1 1 =
        some ((ranflat 1).2, (ranflat (ranflat 1).1).2, ranflatState^[2] 1) :=
  rangauss_two_draws ratOps 1 (by decide) (by norm_num) 0

/-! ## Theorems: the transform buffer -/

/-- C8: a buffer that was constructed and then only resized, assigned a scalar,
given `init` calls in a mode other than 0 and 1, or `copyInit` calls from buffers
that are not initialized, has an initialization level other than 0 and 1; on it
both `fft()` and `ifft()` end in the fatal-error branch, and at that point the
real array, the complex array and the dimensions are exactly as before the call
(only the message buffer was written). -/
theorem rfpix_transform_before_init_fatal {F P W : Type} (ops : FloatOps F) (lib : Fftw F P W)
    (w : W) (nx ny : Int) (a : Alloc F) (l : List (rfpix.Op F P))
    (hl : ∀ op ∈ l, op.noInit) :
    (rfpix.fft lib (rfpix.run ops lib (w, rfpix.new nx ny a) l).2).isExit = true ∧
    (rfpix.ifft ops lib (rfpix.run ops lib (w, rfpix.new nx ny a) l).2).isExit = true ∧
    (rfpix.fft lib (rfpix.run ops lib (w, rfpix.new nx ny a) l).2).state =
      { (rfpix.run ops lib (w, rfpix.new nx ny a) l).2 with
        sbuff := "error: cfpix::fft() called before init()" } ∧
    (rfpix.ifft ops lib (rfpix.run ops lib (w, rfpix.new nx ny a) l).2).state =
      { (rfpix.run ops lib (w, rfpix.new nx ny a) l).2 with
        sbuff := "error: rfpix::ifft() called before init()" } := by
  have h := rfpix.run_noInit ops lib l (w, rfpix.new nx ny a) hl
    (by simp [rfpix.new_initLevel])
  rw [rfpix.fft_uninit lib _ h, rfpix.ifft_uninit ops lib _ h]
  simp [Outcome.isExit, Outcome.state]

/-- Witness for C8: a 4 x 4 buffer that is resized to 8 x 8 and given `init(2, 1)`. -/
theorem rfpix_transform_before_init_fatal_witness :
    (∀ op ∈ [rfpix.Op.resize 8 8 zeroAlloc, (rfpix.Op.init 2 1 : rfpix.Op ℚ Unit)], op.noInit) ∧
    (rfpix.fft idFftw (rfpix.run ratOps idFftw ((), rfpix.new 4 4 zeroAlloc)
      [rfpix.Op.resize 8 8 zeroAlloc, rfpix.Op.init 2 1]).2).isExit = true :=
  ⟨by simp [rfpix.Op.noInit],
   (rfpix_transform_before_init_fatal ratOps idFftw () 4 4 zeroAlloc
      [rfpix.Op.resize 8 8 zeroAlloc, rfpix.Op.init 2 1] (by simp [rfpix.Op.noInit])).1⟩

/-- C9 (as the code behaves): `resize` never changes the initialization level or
the two plan handles; for a buffer whose level is 0 or 1 the level is the same
after the resize, and `fft()` and `ifft()` on the resized buffer do not take the
fatal-error branch. -/
theorem rfpix_resize_keeps_init_level {F P W : Type} (ops : FloatOps F) (lib : Fftw F P W)
    (b : rfpix F P) (nx ny : Int) (a : Alloc F) (hb : b.initLevel = 0 ∨ b.initLevel = 1) :
    (b.resize nx ny a).2.initLevel = b.initLevel ∧
    (b.resize nx ny a).2.planTf = b.planTf ∧ (b.resize nx ny a).2.planTi = b.planTi ∧
    (rfpix.fft lib (b.resize nx ny a).2).isExit = false ∧
    (rfpix.ifft ops lib (b.resize nx ny a).2).isExit = false := by
  obtain ⟨h1, h2, h3⟩ := rfpix.resize_initLevel b nx ny a
  refine ⟨h1, h2, h3, ?_, ?_⟩
  · unfold rfpix.fft
    rw [h1, if_pos hb]
    rfl
  · unfold rfpix.ifft
    rw [h1, if_pos hb]
    rfl

/-- Witness for C9: a 4 x 4 buffer initialized in mode 0 and resized to 8 x 8. -/
theorem rfpix_resize_keeps_init_level_witness :
    ((rfpix.init idFftw () (rfpix.new 4 4 zeroAlloc) 0 1).2.resize 8 8 zeroAlloc).2.initLevel =
      (rfpix.init idFftw () (rfpix.new 4 4 zeroAlloc : rfpix ℚ Unit) 0 1).2.initLevel :=
  (rfpix_resize_keeps_init_level ratOps idFftw
    (rfpix.init idFftw () (rfpix.new 4 4 zeroAlloc) 0 1).2 8 8 zeroAlloc
    (Or.inl (by simp [rfpix.init]))).1

/-- C9 fails as stated: a 4 x 4 buffer initialized in mode 0 and then resized to
8 x 8 (both allocations succeeding) has the new dimensions but still
initialization level 0, not the uninitialized level, and `fft()` and `ifft()` on
it return normally instead of ending in the fatal-error branch. -/
theorem rfpix_resize_does_not_reset_init_level :
    (rfpix.init idFftw () (rfpix.new 4 4 zeroAlloc : rfpix ℚ Unit) 0 1).2.initLevel = 0 ∧
    ((rfpix.init idFftw () (rfpix.new 4 4 zeroAlloc : rfpix ℚ Unit) 0 1).2.resize 8 8
        zeroAlloc).1 = 1 ∧
    ((rfpix.init idFftw () (rfpix.new 4 4 zeroAlloc : rfpix ℚ Unit) 0 1).2.resize 8 8
        zeroAlloc).2.nx = 8 ∧
    ((rfpix.init idFftw () (rfpix.new 4 4 zeroAlloc : rfpix ℚ Unit) 0 1).2.resize 8 8
        zeroAlloc).2.initLevel = 0 ∧
    (rfpix.fft idFftw ((rfpix.init idFftw () (rfpix.new 4 4 zeroAlloc : rfpix ℚ Unit) 0 1).2.resize
        8 8 zeroAlloc).2).isExit = false ∧
    (rfpix.ifft ratOps idFftw ((rfpix.init idFftw () (rfpix.new 4 4 zeroAlloc : rfpix ℚ Unit) 0
        1).2.resize 8 8 zeroAlloc).2).isExit = false := by
  have hi : (rfpix.init idFftw () (rfpix.new 4 4 zeroAlloc : rfpix ℚ Unit) 0 1).2.initLevel = 0 := by
    simp [rfpix.init]
  have hr := rfpix.resize_initLevel
    (rfpix.init idFftw () (rfpix.new 4 4 zeroAlloc : rfpix ℚ Unit) 0 1).2 8 8 zeroAlloc
  have t4 : Int.tdiv 4 2 = 2 := rfl
  have t8 : Int.tdiv 8 2 = 4 := rfl
  refine ⟨hi, ?_, ?_, ?_, ?_, ?_⟩
  · simp [rfpix.resize, rfpix.init, rfpix.new, rfpix.blank, mallocList, intMul, zeroAlloc, idFftw,
      t4, t8]
  · simp [rfpix.resize, rfpix.init, rfpix.new, rfpix.blank, rfpix.nx, mallocList, intMul,
      zeroAlloc, idFftw, t4, t8]
  · rw [hr.1, hi]
  · unfold rfpix.fft
    rw [hr.1, hi]
    rfl
  · unfold rfpix.ifft
    rw [hr.1, hi]
    rfl

/-- C10 (as the code behaves): whenever `resize(nx, ny)` is called with dimensions
that differ from the current ones and returns `+1`, then, whatever happened to
the buffer before, `nx()` is `nx`, `ny()` is `ny`, the compressed axis is
`ny / 2 + 1` (C integer division), and both arrays are allocated, the real one
with `nx * ny` and the complex one with `nx * nyc` elements (the `int` products,
which are the mathematical products when these fit in an `int`). -/
theorem rfpix_resize_success_usable {F P : Type} (b : rfpix F P) (nx ny : Int) (a : Alloc F)
    (hd : nx ≠ b.nxl ∨ ny ≠ b.nyl) (hok : (b.resize nx ny a).1 = 1) :
    (b.resize nx ny a).2.nx = nx ∧ (b.resize nx ny a).2.ny = ny ∧
    (b.resize nx ny a).2.nycl = Int.tdiv ny 2 + 1 ∧
    ∃ (d : List (F × F)) (r : List F),
      (b.resize nx ny a).2.data = some d ∧ (b.resize nx ny a).2.rpix = some r ∧
      (d.length : Int) = intMul nx (Int.tdiv ny 2 + 1) ∧ (r.length : Int) = intMul nx ny ∧
      (0 ≤ nx * ny → nx * ny < 2 ^ 31 → (r.length : Int) = nx * ny) ∧
      (0 ≤ nx * (Int.tdiv ny 2 + 1) → nx * (Int.tdiv ny 2 + 1) < 2 ^ 31 →
        (d.length : Int) = nx * (Int.tdiv ny 2 + 1)) := by
  unfold rfpix.resize at hok ⊢
  rw [if_pos hd] at hok ⊢
  cases hdata : mallocList (intMul nx (Int.tdiv ny 2 + 1)) a.data with
  | none => simp [hdata] at hok
  | some d =>
    cases hrpix : mallocList (intMul nx ny) a.rpix with
    | none => simp [hdata, hrpix] at hok
    | some r =>
      obtain ⟨hd0, hdl⟩ := rfpix.mallocList_some _ _ _ hdata
      obtain ⟨hr0, hrl⟩ := rfpix.mallocList_some _ _ _ hrpix
      have hdl' : (d.length : Int) = intMul nx (Int.tdiv ny 2 + 1) := by
        rw [hdl]; exact Int.toNat_of_nonneg hd0
      have hrl' : (r.length : Int) = intMul nx ny := by
        rw [hrl]; exact Int.toNat_of_nonneg hr0
      simp only [hdata, hrpix, Option.isNone_some, Bool.false_eq_true, or_self, if_false,
        rfpix.nx, rfpix.ny, true_and]
      refine ⟨d, r, rfl, rfl, hdl', hrl', ?_, ?_⟩
      · intro h1 h2
        rw [hrl', rfpix.intMul_eq nx ny (by omega) h2]
      · intro h1 h2
        rw [hdl', rfpix.intMul_eq nx _ (by omega) h2]

/-- Witness for C10: a blank buffer resized to 4 x 6 with both allocations
succeeding. -/
theorem rfpix_resize_success_usable_witness :
    ((4 : Int) ≠ (rfpix.blank : rfpix ℚ Unit).nxl ∨ (6 : Int) ≠ (rfpix.blank : rfpix ℚ Unit).nyl) ∧
    ((rfpix.blank : rfpix ℚ Unit).resize 4 6 zeroAlloc).1 = 1 ∧
    ((rfpix.blank : rfpix ℚ Unit).resize 4 6 zeroAlloc).2.nycl = Int.tdiv 6 2 + 1 :=
  ⟨Or.inl (by simp [rfpix.blank]),
   by
    have t6 : Int.tdiv 6 2 = 3 := rfl
    simp [rfpix.resize, rfpix.blank, mallocList, intMul, zeroAlloc, t6],
   (rfpix_resize_success_usable (rfpix.blank : rfpix ℚ Unit) 4 6 zeroAlloc
      (Or.inl (by simp [rfpix.blank]))
      (by
        have t6 : Int.tdiv 6 2 = 3 := rfl
        simp [rfpix.resize, rfpix.blank, mallocList, intMul, zeroAlloc, t6])).2.2.1⟩

/-- C10 fails as stated: on a default-constructed buffer `resize(0, 0)` returns
`+1`, yet the compressed axis is 0 rather than `0 / 2 + 1 = 1` and neither array
is allocated. -/
theorem rfpix_resize_same_dims_not_allocated :
    ((rfpix.new 0 0 zeroAlloc : rfpix ℚ Unit).resize 0 0 zeroAlloc).1 = 1 ∧
    ((rfpix.new 0 0 zeroAlloc : rfpix ℚ Unit).resize 0 0 zeroAlloc).2.nx = 0 ∧
    ((rfpix.new 0 0 zeroAlloc : rfpix ℚ Unit).resize 0 0 zeroAlloc).2.ny = 0 ∧
    ((rfpix.new 0 0 zeroAlloc : rfpix ℚ Unit).resize 0 0 zeroAlloc).2.nycl ≠ Int.tdiv 0 2 + 1 ∧
    ((rfpix.new 0 0 zeroAlloc : rfpix ℚ Unit).resize 0 0 zeroAlloc).2.data = none ∧
    ((rfpix.new 0 0 zeroAlloc : rfpix ℚ Unit).resize 0 0 zeroAlloc).2.rpix = none := by
  simp [rfpix.resize, rfpix.new, rfpix.blank, rfpix.nx, rfpix.ny]

/-! ## Facts about the copy and fill loops -/

theorem foldl_range_invariant {β : Type} (f : β → Nat → β) (Q : Nat → β → Prop) (n : Nat)
    (start : β) (h0 : Q 0 start)
    (hstep : ∀ k acc, k < n → Q k acc → Q (k + 1) (f acc k)) :
    Q n ((List.range n).foldl f start) := by
  induction n with
  | zero => simpa using h0
  | succ m ih =>
    rw [List.range_succ, List.foldl_append]
    simp only [List.foldl_cons, List.foldl_nil]
    exact hstep m _ (Nat.lt_succ_self m)
      (ih (fun k acc hk hq => hstep k acc (Nat.lt_succ_of_lt hk) hq))

theorem copyPrefix_getElem? {α : Type} (n : Nat) (dst src : List α)
    (hd : n ≤ dst.length) (hs : n ≤ src.length) :
    (rfpix.copyPrefix n dst src).length = dst.length ∧
      ∀ i, (rfpix.copyPrefix n dst src)[i]? = if i < n then src[i]? else dst[i]? := by
  unfold rfpix.copyPrefix
  refine foldl_range_invariant _
    (fun k acc => acc.length = dst.length ∧ ∀ i, acc[i]? = if i < k then src[i]? else dst[i]?)
    n dst ⟨rfl, fun i => by simp⟩ ?_
  intro k acc hk ⟨hlen, hget⟩
  have hks : k < src.length := by omega
  have hsk : src.get? k = some (src[k]) := by
    simp [List.getElem?_eq_getElem hks]
  simp only [hsk, List.length_set]
  refine ⟨hlen, fun i => ?_⟩
  rw [List.getElem?_set]
  by_cases hik : k = i
  · subst hik
    have : k < acc.length := by omega
    simp [this, List.getElem?_eq_getElem hks]
  · rw [if_neg hik, hget i]
    have : (i < k + 1) ↔ (i < k) := by omega
    simp only [this]

theorem copyPrefix_full {α : Type} (dst src : List α) (h : dst.length = src.length) :
    rfpix.copyPrefix dst.length dst src = src := by
  obtain ⟨hlen, hget⟩ := copyPrefix_getElem? dst.length dst src (le_refl _) (by omega)
  apply List.ext_getElem?
  intro i
  rw [hget i]
  by_cases hi : i < dst.length
  · rw [if_pos hi]
  · rw [if_neg hi, List.getElem?_eq_none (by omega), List.getElem?_eq_none (by omega)]

theorem fillPrefix_full {α : Type} (v : α) (dst : List α) :
    rfpix.fillPrefix dst.length v dst = List.replicate dst.length v := by
  have h : (rfpix.fillPrefix dst.length v dst).length = dst.length ∧
      ∀ i, (rfpix.fillPrefix dst.length v dst)[i]? =
        if i < dst.length then some v else dst[i]? := by
    unfold rfpix.fillPrefix
    refine foldl_range_invariant _
      (fun k acc => acc.length = dst.length ∧ ∀ i, acc[i]? = if i < k then some v else dst[i]?)
      dst.length dst ⟨rfl, fun i => by simp⟩ ?_
    intro k acc hk ⟨hlen, hget⟩
    simp only [List.length_set]
    refine ⟨hlen, fun i => ?_⟩
    rw [List.getElem?_set]
    by_cases hik : k = i
    · subst hik
      have : k < acc.length := by omega
      simp [this]
    · rw [if_neg hik, hget i]
      have : (i < k + 1) ↔ (i < k) := by omega
      simp only [this]
  apply List.ext_getElem?
  intro i
  rw [h.2 i, List.getElem?_replicate]
  by_cases hi : i < dst.length
  · simp [hi]
  · rw [if_neg hi, if_neg hi, List.getElem?_eq_none (by omega)]

/-- When `copyInit` adopts and when it returns early. -/
theorem rfpix.copyInit_cases {F P : Type} (b xx : rfpix F P) :
    ((b.nxl = xx.nxl ∨ b.nyl = xx.nyl) →
      b.copyInit xx =
        { b with planTf := xx.planTf, planTi := xx.planTi, initLevel := xx.initLevel }) ∧
    ((b.nxl ≠ xx.nxl ∧ b.nyl ≠ xx.nyl) → b.copyInit xx = b) := by
  unfold rfpix.copyInit
  constructor
  · intro h
    rw [if_neg (by tauto)]
  · intro h
    rw [if_pos h]

/-! ## Theorems: `copyInit` and assignment between buffers -/

/-- C11: at the concrete input "receiver 2 x 2, not initialized, no plans; other
2 x 4, initialized in mode 0, with plans" the two buffers differ in `ny`, yet
`copyInit` does not return early: the receiver takes over the other buffer's
forward plan, inverse plan and initialization level. -/
theorem rfpix_copyInit_adopts_on_ny_mismatch :
    buf2x2.nx = buf2x4init.nx ∧ buf2x2.ny ≠ buf2x4init.ny ∧
    (buf2x2.copyInit buf2x4init).initLevel = 0 ∧
    (buf2x2.copyInit buf2x4init).initLevel ≠ buf2x2.initLevel ∧
    (buf2x2.copyInit buf2x4init).planTf = some () ∧
    (buf2x2.copyInit buf2x4init).planTi = some () ∧
    (buf2x2.copyInit buf2x4init).planTf ≠ buf2x2.planTf ∧
    (buf2x2.copyInit buf2x4init).planTi ≠ buf2x2.planTi := by
  simp [rfpix.copyInit, buf2x2, buf2x4init, rfpix.nx, rfpix.ny]

/-- C12: whenever the source and the destination differ in `nx` or in `ny`,
`operator=(const rfpix&)` ends in the fatal-error branch, and at that point the
destination's real array, complex array, dimensions, plans and initialization
level are exactly as before the call (only the message buffer was written). -/
theorem rfpix_assign_mismatch_fatal {F P : Type} (b m : rfpix F P)
    (h : m.nxl ≠ b.nxl ∨ m.nyl ≠ b.nyl) :
    (b.assign m).isExit = true ∧
    (b.assign m).state.rpix = b.rpix ∧ (b.assign m).state.data = b.data ∧
    (b.assign m).state =
      { b with sbuff := "rfpix operator= invoked with unequal sizes:\n"
              ++ toString b.nxl ++ " x " ++ toString b.nxl ++ " and "
              ++ toString m.nxl ++ " x " ++ toString m.nxl } := by
  unfold rfpix.assign
  simp only [if_pos h]
  exact ⟨rfl, rfl, rfl, rfl⟩

/-- Witness for C12: destination 2 x 2, source 2 x 4. -/
theorem rfpix_assign_mismatch_fatal_witness :
    (buf2x4init.nxl ≠ buf2x2.nxl ∨ buf2x4init.nyl ≠ buf2x2.nyl) ∧
    (buf2x2.assign buf2x4init).isExit = true ∧
    (buf2x2.assign buf2x4init).state.rpix = buf2x2.rpix :=
  ⟨Or.inr (by simp [buf2x2, buf2x4init]),
   (rfpix_assign_mismatch_fatal buf2x2 buf2x4init (Or.inr (by simp [buf2x2, buf2x4init]))).1,
   (rfpix_assign_mismatch_fatal buf2x2 buf2x4init (Or.inr (by simp [buf2x2, buf2x4init]))).2.1⟩

/-- C13 (as the code behaves): for a destination and a source with the same
`(nx, ny)`, both positive, and both arrays of both buffers allocated with
`nx * ny` real and `nx * nyc` complex elements, `operator=(const rfpix&)` returns
normally and afterwards the destination's real array and complex array (both
components of every sample) equal the source's, while the destination's
dimensions, plans and initialization level are unchanged. -/
theorem rfpix_assign_equal_dims_copies {F P : Type} (b m : rfpix F P)
    (d d' : List (F × F)) (r r' : List F)
    (hx : m.nxl = b.nxl) (hy : m.nyl = b.nyl) (hpos : 0 < b.nxl ∧ 0 < b.nyl)
    (hbd : b.data = some d) (hbr : b.rpix = some r)
    (hmd : m.data = some d') (hmr : m.rpix = some r')
    (hdl : d.length = (intMul b.nxl b.nycl).toNat) (hdl' : d'.length = d.length)
    (hrl : r.length = (intMul b.nxl b.nyl).toNat) (hrl' : r'.length = r.length) :
    (b.assign m).isExit = false ∧
    (b.assign m).state.rpix = some r' ∧ (b.assign m).state.data = some d' ∧
    (b.assign m).state.planTf = b.planTf ∧ (b.assign m).state.planTi = b.planTi ∧
    (b.assign m).state.initLevel = b.initLevel ∧
    (b.assign m).state.nxl = b.nxl ∧ (b.assign m).state.nyl = b.nyl ∧
    (b.assign m).state.nycl = b.nycl := by
  unfold rfpix.assign
  have hne : ¬ (m.nxl ≠ b.nxl ∨ m.nyl ≠ b.nyl) := by
    rw [hx, hy]; simp
  simp only [if_neg hne, if_pos hpos, Outcome.isExit, Outcome.state, hbd, hbr, hmd, hmr,
    Option.map_some', Option.getD_some, ← hdl, ← hrl]
  rw [copyPrefix_full d d' hdl'.symm, copyPrefix_full r r' hrl'.symm]
  simp

/-- Witness for C13: destination `buf2x2`, source `buf2x2init`. -/
theorem rfpix_assign_equal_dims_copies_witness :
    (buf2x2.assign buf2x2init).isExit = false ∧
    (buf2x2.assign buf2x2init).state.rpix = some [5, 6, 7, 8] ∧
    (buf2x2.assign buf2x2init).state.data = some [(5, 1), (6, 1), (7, 1), (8, 1)] ∧
    (buf2x2.assign buf2x2init).state.initLevel = buf2x2.initLevel :=
  have h := rfpix_assign_equal_dims_copies buf2x2 buf2x2init
    [(1, 0), (2, 0), (3, 0), (4, 0)] [(5, 1), (6, 1), (7, 1), (8, 1)] [1, 2, 3, 4] [5, 6, 7, 8]
    rfl rfl (by simp [buf2x2]) rfl rfl rfl rfl
    (by simp [buf2x2, intMul]) rfl (by simp [buf2x2, intMul]) rfl
  ⟨h.1, h.2.1, h.2.2.1, h.2.2.2.2.2.1⟩

/-- C13 fails as stated: two default-constructed buffers have the same
dimensions `(0, 0)`, yet `operator=(const rfpix&)` between them ends in the
fatal-error branch ("bad operator=() in rfpix"). -/
theorem rfpix_assign_empty_buffers_fatal :
    (rfpix.new 0 0 zeroAlloc : rfpix ℚ Unit).nx = (rfpix.new 0 0 zeroAlloc : rfpix ℚ Unit).nx ∧
    (rfpix.new 0 0 zeroAlloc : rfpix ℚ Unit).ny = (rfpix.new 0 0 zeroAlloc : rfpix ℚ Unit).ny ∧
    ((rfpix.new 0 0 zeroAlloc : rfpix ℚ Unit).assign (rfpix.new 0 0 zeroAlloc)).isExit = true ∧
    ((rfpix.new 0 0 zeroAlloc : rfpix ℚ Unit).assign (rfpix.new 0 0 zeroAlloc)).state.sbuff =
      "bad operator=() in rfpix" := by
  simp [rfpix.assign, rfpix.new, rfpix.blank, Outcome.isExit, Outcome.state]

/-! ## Facts about the rescaling loops of `ifft` -/

theorem scaleAt_step {F : Type} (ops : FloatOps F) (scale : F) (raw acc : List F) (k : Nat)
    (hk : k < raw.length)
    (h : acc.length = raw.length ∧
      ∀ i, acc[i]? = if i < k then raw[i]?.map (fun v => ops.mul v scale) else raw[i]?) :
    (rfpix.scaleAt ops scale acc k).length = raw.length ∧
      ∀ i, (rfpix.scaleAt ops scale acc k)[i]? =
        if i < k + 1 then raw[i]?.map (fun v => ops.mul v scale) else raw[i]? := by
  obtain ⟨hlen, hget⟩ := h
  have hacc : acc.get? k = some raw[k] := by
    rw [List.get?_eq_getElem?, hget k, if_neg (lt_irrefl k), List.getElem?_eq_getElem hk]
  unfold rfpix.scaleAt
  simp only [hacc, List.length_set]
  refine ⟨hlen, fun i => ?_⟩
  rw [List.getElem?_set]
  by_cases hik : k = i
  · subst hik
    have : k < acc.length := by omega
    simp [this, List.getElem?_eq_getElem hk]
  · rw [if_neg hik, hget i]
    have : (i < k + 1) ↔ (i < k) := by omega
    simp only [this]

theorem scaleRow_step {F : Type} (ops : FloatOps F) (scale : F) (raw acc : List F)
    (ix NY : Nat) (hbase : (intMul (ix : Int) (NY : Int)).toNat = ix * NY)
    (hfit : ix * NY + NY ≤ raw.length)
    (h : acc.length = raw.length ∧
      ∀ i, acc[i]? = if i < ix * NY then raw[i]?.map (fun v => ops.mul v scale) else raw[i]?) :
    (rfpix.scaleRow ops scale (NY : Int) acc ix).length = raw.length ∧
      ∀ i, (rfpix.scaleRow ops scale (NY : Int) acc ix)[i]? =
        if i < (ix + 1) * NY then raw[i]?.map (fun v => ops.mul v scale) else raw[i]? := by
  unfold rfpix.scaleRow
  rw [hbase, Int.toNat_natCast]
  have hmul : (ix + 1) * NY = ix * NY + NY := by ring
  rw [hmul]
  refine foldl_range_invariant _
    (fun m a => a.length = raw.length ∧
      ∀ i, a[i]? = if i < ix * NY + m then raw[i]?.map (fun v => ops.mul v scale) else raw[i]?)
    NY acc (by simpa using h) ?_
  intro m a hm hq
  exact scaleAt_step ops scale raw a (ix * NY + m) (by omega) hq

theorem scaleAll_eq_map {F : Type} (ops : FloatOps F) (scale : F) (NX NY : Nat) (raw : List F)
    (hlen : raw.length = NX * NY) (hsmall : ((NX : Int) * (NY : Int)) < 2 ^ 31) :
    rfpix.scaleAll ops scale (NX : Int) (NY : Int) raw = raw.map (fun v => ops.mul v scale) := by
  have hinv : (rfpix.scaleAll ops scale (NX : Int) (NY : Int) raw).length = raw.length ∧
      ∀ i, (rfpix.scaleAll ops scale (NX : Int) (NY : Int) raw)[i]? =
        if i < NX * NY then raw[i]?.map (fun v => ops.mul v scale) else raw[i]? := by
    unfold rfpix.scaleAll
    rw [Int.toNat_natCast]
    refine foldl_range_invariant _
      (fun ix a => a.length = raw.length ∧
        ∀ i, a[i]? = if i < ix * NY then raw[i]?.map (fun v => ops.mul v scale) else raw[i]?)
      NX raw ⟨rfl, fun i => by simp⟩ ?_
    intro ix a hix hq
    have hle : ix * NY + NY ≤ NX * NY := by
      have : (ix + 1) * NY ≤ NX * NY := Nat.mul_le_mul_right NY hix
      calc ix * NY + NY = (ix + 1) * NY := by ring
        _ ≤ NX * NY := this
    have hbase : (intMul (ix : Int) (NY : Int)).toNat = ix * NY := by
      have h1 : ((ix * NY : Nat) : Int) ≤ ((NX * NY : Nat) : Int) := by
        exact_mod_cast (by omega : ix * NY ≤ NX * NY)
      have h2 : (0 : Int) ≤ ((ix * NY : Nat) : Int) := Int.natCast_nonneg _
      push_cast at h1 h2
      rw [rfpix.intMul_eq _ _ (by omega) (by omega)]
      rw [← Nat.cast_mul, Int.toNat_natCast]
    exact scaleRow_step ops scale raw a ix NY hbase (by omega) hq
  apply List.ext_getElem?
  intro i
  rw [hinv.2 i, List.getElem?_map]
  by_cases hi : i < NX * NY
  · rw [if_pos hi]
  · rw [if_neg hi, List.getElem?_eq_none (by omega)]
    rfl

/-! ## Facts about `findRange` -/

theorem filterMap_get?_range {α : Type} (l : List α) :
    (List.range l.length).filterMap l.get? = l := by
  induction l using List.reverseRecOn with
  | nil => rfl
  | append_singleton l a ih =>
    rw [List.length_append, List.length_singleton, List.range_succ, List.filterMap_append]
    have h1 : (List.range l.length).filterMap (l ++ [a]).get? =
        (List.range l.length).filterMap l.get? := by
      apply List.filterMap_congr
      intro i hi
      rw [List.mem_range] at hi
      simp [List.getElem?_append_left hi]
    rw [h1, ih]
    simp

theorem rangeStep_foldl {F : Type} (ops : FloatOps F)
    (hirr : ∀ a, ops.lt a a = false)
    (htrans : ∀ a b c, ops.lt a b = true → ops.lt b c = true → ops.lt a c = true)
    (l : List F) :
    ∀ (seen : List F) (acc : F × F),
      ((∀ x ∈ seen, ops.lt x acc.1 = false ∧ ops.lt acc.2 x = false) ∧
        acc.1 ∈ seen ∧ acc.2 ∈ seen) →
      ((∀ x ∈ seen ++ l, ops.lt x (l.foldl (rfpix.rangeStep ops) acc).1 = false ∧
          ops.lt (l.foldl (rfpix.rangeStep ops) acc).2 x = false) ∧
        (l.foldl (rfpix.rangeStep ops) acc).1 ∈ seen ++ l ∧
        (l.foldl (rfpix.rangeStep ops) acc).2 ∈ seen ++ l) := by
  induction l with
  | nil => intro seen acc h; simpa using h
  | cons y tl ih =>
    intro seen acc ⟨hall, h1, h2⟩
    have hstep : (∀ x ∈ seen ++ [y],
          ops.lt x (rfpix.rangeStep ops acc y).1 = false ∧
          ops.lt (rfpix.rangeStep ops acc y).2 x = false) ∧
        (rfpix.rangeStep ops acc y).1 ∈ seen ++ [y] ∧
        (rfpix.rangeStep ops acc y).2 ∈ seen ++ [y] := by
      unfold rfpix.rangeStep
      refine ⟨?_, ?_, ?_⟩
      · intro x hx
        rw [List.mem_append, List.mem_singleton] at hx
        constructor
        · by_cases hy : ops.lt y acc.1 = true
          · simp only [hy, if_true]
            rcases hx with hx | hx
            · by_contra hc
              have hxy : ops.lt x y = true := by simpa using hc
              have := htrans x y acc.1 hxy hy
              rw [(hall x hx).1] at this
              exact Bool.false_ne_true this
            · rw [hx]; exact hirr y
          · simp only [hy, Bool.false_eq_true, if_false]
            rcases hx with hx | hx
            · exact (hall x hx).1
            · rw [hx]; simpa using hy
        · by_cases hy : ops.lt acc.2 y = true
          · simp only [hy, if_true]
            rcases hx with hx | hx
            · by_contra hc
              have hyx : ops.lt y x = true := by simpa using hc
              have := htrans acc.2 y x hy hyx
              rw [(hall x hx).2] at this
              exact Bool.false_ne_true this
            · rw [hx]; exact hirr y
          · simp only [hy, Bool.false_eq_true, if_false]
            rcases hx with hx | hx
            · exact (hall x hx).2
            · rw [hx]; simpa using hy
      · by_cases hy : ops.lt y acc.1 = true
        · simp [hy]
        · simp only [hy, Bool.false_eq_true, if_false]
          exact List.mem_append_left _ h1
      · by_cases hy : ops.lt acc.2 y = true
        · simp [hy]
        · simp only [hy, Bool.false_eq_true, if_false]
          exact List.mem_append_left _ h2
    have := ih (seen ++ [y]) (rfpix.rangeStep ops acc y) hstep
    simpa [List.append_assoc] using this

/-! ## Theorems: `ifft`, scalar assignment and `findRange` -/

/-- C14: for an initialized buffer with non-negative dimensions whose product
fits an `int`, if the complex-to-real transform leaves `nx * ny` real samples
`raw`, then `ifft()` returns normally and the real array afterwards is `raw` with
every sample multiplied exactly once by `scale = 1.0F / (float)(nx * ny)`; the
complex array is what the transform left. -/
theorem rfpix_ifft_rescales {F P W : Type} (ops : FloatOps F) (lib : Fftw F P W)
    (b : rfpix F P) (raw : List F)
    (hinit : b.initLevel = 0 ∨ b.initLevel = 1)
    (hnx : 0 ≤ b.nxl) (hny : 0 ≤ b.nyl) (hsmall : b.nxl * b.nyl < 2 ^ 31)
    (hraw : (lib.execC2R b.planTi b.data b.rpix).2 = some raw)
    (hlen : (raw.length : Int) = b.nxl * b.nyl) :
    (rfpix.ifft ops lib b).isExit = false ∧
    (rfpix.ifft ops lib b).state.rpix =
      some (raw.map fun v =>
        ops.mul v (ops.div (ops.ofRat 1) (ops.ofRat ((b.nxl * b.nyl : Int) : ℚ)))) ∧
    (rfpix.ifft ops lib b).state.data = (lib.execC2R b.planTi b.data b.rpix).1 := by
  obtain ⟨NX, hNX⟩ := Int.eq_ofNat_of_zero_le hnx
  obtain ⟨NY, hNY⟩ := Int.eq_ofNat_of_zero_le hny
  have hprod : intMul b.nxl b.nyl = b.nxl * b.nyl :=
    rfpix.intMul_eq _ _ (by nlinarith) hsmall
  have hlenN : raw.length = NX * NY := by
    rw [hNX, hNY] at hlen
    exact_mod_cast hlen
  unfold rfpix.ifft
  simp only [if_pos hinit, Outcome.isExit, Outcome.state, hraw, Option.map_some', hprod]
  refine ⟨trivial, ?_, trivial⟩
  rw [hNX, hNY] at hsmall ⊢
  rw [scaleAll_eq_map ops _ NX NY raw hlenN hsmall]

/-- Witness for C14: the initialized 2 x 2 buffer with the stand-in library, whose
transform leaves the real samples 5, 6, 7, 8. -/
theorem rfpix_ifft_rescales_witness :
    (rfpix.ifft ratOps idFftw buf2x2init).isExit = false ∧
    (rfpix.ifft ratOps idFftw buf2x2init).state.rpix =
      some ([5, 6, 7, 8].map fun v =>
        ratOps.mul v (ratOps.div (ratOps.ofRat 1)
          (ratOps.ofRat ((buf2x2init.nxl * buf2x2init.nyl : Int) : ℚ)))) :=
  have h := rfpix_ifft_rescales ratOps idFftw buf2x2init [5, 6, 7, 8]
    (Or.inl rfl) (by simp [buf2x2init]) (by simp [buf2x2init]) (by simp [buf2x2init])
    rfl (by simp [buf2x2init])
  ⟨h.1, h.2.1⟩

/-- C15: assignment from a scalar `xf`.  For a buffer with `nx > 0` and `ny > 0`
whose arrays are allocated with `nx * nyc` complex and `nx * ny` real elements,
afterwards every complex sample is `(0, 0)`, every real sample is `xf`, and the
dimensions are unchanged.  For a buffer without `nx > 0` and `ny > 0`, when both
allocations of the internal `resize(1, 1)` succeed, afterwards the buffer is
1 x 1 with `nyc = 1`, its single real sample is `xf` and its single complex
sample is `(0, 0)`. -/
theorem rfpix_assignScalar_spec {F P : Type} (ops : FloatOps F) (b : rfpix F P) (xf : F)
    (a : Alloc F) :
    ((0 < b.nxl ∧ 0 < b.nyl) → ∀ (d : List (F × F)) (r : List F),
      b.data = some d → b.rpix = some r →
      d.length = (intMul b.nxl b.nycl).toNat → r.length = (intMul b.nxl b.nyl).toNat →
      (b.assignScalar ops xf a).data = some (List.replicate d.length (ops.ofRat 0, ops.ofRat 0)) ∧
      (b.assignScalar ops xf a).rpix = some (List.replicate r.length xf) ∧
      (b.assignScalar ops xf a).nxl = b.nxl ∧ (b.assignScalar ops xf a).nyl = b.nyl ∧
      (b.assignScalar ops xf a).nycl = b.nycl) ∧
    (¬ (0 < b.nxl ∧ 0 < b.nyl) → ∀ (fd : Nat → F × F) (fr : Nat → F),
      a.data = some fd → a.rpix = some fr →
      (b.assignScalar ops xf a).nxl = 1 ∧ (b.assignScalar ops xf a).nyl = 1 ∧
      (b.assignScalar ops xf a).nycl = 1 ∧
      (b.assignScalar ops xf a).rpix = some [xf] ∧
      (b.assignScalar ops xf a).data = some [(ops.ofRat 0, ops.ofRat 0)]) := by
  constructor
  · intro hpos d r hd hr hdl hrl
    unfold rfpix.assignScalar
    simp only [if_pos hpos, hd, hr, Option.map_some', ← hdl, ← hrl]
    rw [fillPrefix_full, fillPrefix_full]
    simp
  · intro hneg fd fr hfd hfr
    have hdiff : (1 : Int) ≠ b.nxl ∨ (1 : Int) ≠ b.nyl := by
      by_contra hc
      push_neg at hc
      exact hneg ⟨by omega, by omega⟩
    have t1 : Int.tdiv 1 2 = 0 := rfl
    unfold rfpix.assignScalar
    simp only [if_neg hneg, rfpix.resize, if_pos hdiff, hfd, hfr, mallocList, intMul, t1]
    have hrange : List.range 1 = [0] := rfl
    simp [hrange]

/-- Witness for C15: the allocated 2 x 2 buffer. -/
theorem rfpix_assignScalar_spec_witness :
    (buf2x2.assignScalar ratOps 9 zeroAlloc).data =
        some (List.replicate 4 (ratOps.ofRat 0, ratOps.ofRat 0)) ∧
      (buf2x2.assignScalar ratOps 9 zeroAlloc).rpix = some (List.replicate 4 9) :=
  have h := (rfpix_assignScalar_spec ratOps buf2x2 9 zeroAlloc).1 (by simp [buf2x2])
    [(1, 0), (2, 0), (3, 0), (4, 0)] [1, 2, 3, 4] rfl rfl
    (by simp [buf2x2, intMul]) (by simp [buf2x2, intMul])
  ⟨h.1, h.2.1⟩

/-- C16 (as the code behaves): `findRange` on a buffer with `nx > 0`, `ny > 0` (the
product fitting an `int`) whose real array is allocated with `nx * ny` samples,
for a comparison `<` that is irreflexive and transitive (as `<` on floats is,
NaN included): after the call no real sample compares below `rmin` or above
`rmax`, and `rmin` and `rmax` are themselves samples; if moreover `<=` is the
complement of `>` on the samples of the buffer (none of them is NaN), every real
sample `x` satisfies `rmin <= x <= rmax`.  On a buffer without `nx > 0` and
`ny > 0` the two arguments are left as they were. -/
theorem rfpix_findRange_bounds {F P : Type} (ops : FloatOps F) (b : rfpix F P) (rmin rmax : F)
    (hirr : ∀ a, ops.lt a a = false)
    (htrans : ∀ a b c, ops.lt a b = true → ops.lt b c = true → ops.lt a c = true) :
    ((0 < b.nxl ∧ 0 < b.nyl) → b.nxl * b.nyl < 2 ^ 31 → ∀ r : List F,
      b.rpix = some r → (r.length : Int) = b.nxl * b.nyl →
      (∀ x ∈ r, ops.lt x (b.findRange ops rmin rmax).1 = false ∧
                ops.lt (b.findRange ops rmin rmax).2 x = false) ∧
      (b.findRange ops rmin rmax).1 ∈ r ∧ (b.findRange ops rmin rmax).2 ∈ r ∧
      ((∀ x ∈ r, ∀ y ∈ r, ops.le x y = !ops.lt y x) →
        ∀ x ∈ r, ops.le (b.findRange ops rmin rmax).1 x = true ∧
                 ops.le x (b.findRange ops rmin rmax).2 = true)) ∧
    (¬ (0 < b.nxl ∧ 0 < b.nyl) → b.findRange ops rmin rmax = (rmin, rmax)) := by
  constructor
  · intro hpos hsmall r hr hlen
    have hprod : intMul b.nxl b.nyl = b.nxl * b.nyl :=
      rfpix.intMul_eq _ _ (by nlinarith [hpos.1, hpos.2]) hsmall
    have hn : (intMul b.nxl b.nyl).toNat = r.length := by
      rw [hprod, ← hlen, Int.toNat_natCast]
    have hne : 0 < r.length := by
      have : (0 : Int) < b.nxl * b.nyl := Int.mul_pos hpos.1 hpos.2
      omega
    have h0 : r.get? 0 = some r[0] := by
      rw [List.get?_eq_getElem?, List.getElem?_eq_getElem hne]
    have hmem0 : r[0] ∈ r := List.getElem_mem hne
    have hfr : b.findRange ops rmin rmax = r.foldl (rfpix.rangeStep ops) (r[0], r[0]) := by
      unfold rfpix.findRange
      simp only [if_pos hpos, hr, h0, hn, filterMap_get?_range]
    rw [hfr]
    obtain ⟨hall, h1, h2⟩ := rangeStep_foldl ops hirr htrans r [r[0]] (r[0], r[0])
      ⟨fun x hx => by
          rw [List.mem_singleton] at hx
          subst hx
          exact ⟨hirr _, hirr _⟩,
        List.mem_singleton_self _, List.mem_singleton_self _⟩
    have hsub : ∀ x, x ∈ [r[0]] ++ r → x ∈ r := by
      intro x hx
      rw [List.mem_append, List.mem_singleton] at hx
      rcases hx with hx | hx
      · rw [hx]; exact hmem0
      · exact hx
    have hlo : ∀ x ∈ r, ops.lt x (r.foldl (rfpix.rangeStep ops) (r[0], r[0])).1 = false ∧
        ops.lt (r.foldl (rfpix.rangeStep ops) (r[0], r[0])).2 x = false :=
      fun x hx => hall x (List.mem_append_right _ hx)
    refine ⟨hlo, hsub _ h1, hsub _ h2, ?_⟩
    intro hle x hx
    obtain ⟨ha, hb⟩ := hlo x hx
    constructor
    · rw [hle _ (hsub _ h1) x hx, ha]; rfl
    · rw [hle x hx _ (hsub _ h2), hb]; rfl
  · intro hneg
    unfold rfpix.findRange
    rw [if_neg hneg]

/-- Witness for C16: the arithmetic with NaN and the 2 x 2 buffer with real samples
3, 1, 4, 2. -/
theorem rfpix_findRange_bounds_witness :
    (∀ a : Option ℚ, nanOps.lt a a = false) ∧
    (∀ a b c : Option ℚ, nanOps.lt a b = true → nanOps.lt b c = true → nanOps.lt a c = true) ∧
    (∀ x ∈ [some (3 : ℚ), some 1, some 4, some 2],
      nanOps.lt x (buf2x2ordered.findRange nanOps none none).1 = false ∧
      nanOps.lt (buf2x2ordered.findRange nanOps none none).2 x = false) :=
  have hirr : ∀ a : Option ℚ, nanOps.lt a a = false := fun a => by
    cases a <;> simp [nanOps]
  have htrans : ∀ a b c : Option ℚ,
      nanOps.lt a b = true → nanOps.lt b c = true → nanOps.lt a c = true := fun a b c => by
    cases a <;> cases b <;> cases c <;> simp [nanOps]
    exact fun h1 h2 => lt_trans h1 h2
  ⟨hirr, htrans,
   ((rfpix_findRange_bounds nanOps buf2x2ordered none none hirr htrans).1
      (by simp [buf2x2ordered]) (by simp [buf2x2ordered])
      [some 3, some 1, some 4, some 2] rfl (by simp [buf2x2ordered])).1⟩

/-- C16 fails as stated: on the 1 x 3 buffer whose real samples are NaN, 1, 2 the
call sets both `rmin` and `rmax` to NaN (no later sample compares below or above
NaN), so for the sample 1 neither `rmin <= 1` nor `1 <= rmax` holds. -/
theorem rfpix_findRange_nan_sample :
    (0 < buf1x3nan.nx ∧ 0 < buf1x3nan.ny) ∧
    buf1x3nan.rpix = some [none, some 1, some 2] ∧
    buf1x3nan.findRange nanOps (some 0) (some 0) = (none, none) ∧
    nanOps.le (buf1x3nan.findRange nanOps (some 0) (some 0)).1 (some 1) = false ∧
    nanOps.le (some 1) (buf1x3nan.findRange nanOps (some 0) (some 0)).2 = false := by
  have hfr : buf1x3nan.findRange nanOps (some 0) (some 0) = (none, none) := by
    have hrange : List.range 3 = [0, 1, 2] := rfl
    simp [rfpix.findRange, rfpix.rangeStep, buf1x3nan, intMul, hrange, nanOps]
  refine ⟨by simp [buf1x3nan, rfpix.nx, rfpix.ny], rfl, hfr, ?_, ?_⟩
  · rw [hfr]; rfl
  · rw [hfr]; rfl

/-! ## Facts about the seed copy and the Poisson cache -/

/-- None of `ranflat`, `rangauss`, `ranPoisson`, `resetSeed` writes `initseed` or
`initOK`. -/
theorem ransubs_initseed_frame {D : Type} (ops : FloatOps D) (r : ransubs) :
    (r.ranflat.1.initseed = r.initseed ∧ r.ranflat.1.initOK = r.initOK) ∧
    (∀ newSeed, (r.resetSeed newSeed).initseed = r.initseed ∧
      (r.resetSeed newSeed).initOK = r.initOK) ∧
    (∀ fuel y r', ransubs.rangauss ops fuel r = some (y, r') →
      r'.initseed = r.initseed ∧ r'.initOK = r.initOK) ∧
    (∀ fuel c mean n r' c', ransubs.ranPoisson ops fuel c r mean = some (n, r', c') →
      r'.initseed = r.initseed ∧ r'.initOK = r.initOK) := by
  refine ⟨⟨rfl, rfl⟩, fun _ => ⟨rfl, rfl⟩, ?_, ?_⟩
  · intro fuel y r' h
    unfold ransubs.rangauss at h
    cases hg : rangauss ops fuel r.iseed with
    | none => simp [hg] at h
    | some p =>
      simp only [hg, Option.map_some', Option.some.injEq, Prod.mk.injEq] at h
      rw [← h.2]
      exact ⟨rfl, rfl⟩
  · intro fuel c mean n r' c' h
    unfold ransubs.ranPoisson at h
    cases hg : ranPoisson ops fuel c r.iseed mean with
    | none => simp [hg] at h
    | some p =>
      simp only [hg, Option.map_some', Option.some.injEq, Prod.mk.injEq] at h
      rw [← h.2.1]
      exact ⟨rfl, rfl⟩

/-- Outside the clock-failure path the constructor stores in `initseed` the value
it gives to the state word. -/
theorem ransubs_new_initseed_eq (iseed0 : Nat) (clock : Int)
    (h : iseed0 ≠ 0 ∨ toLong clock ≠ -1) :
    (ransubs.new iseed0 clock).initseed = (ransubs.new iseed0 clock).iseed := by
  unfold ransubs.new
  by_cases h0 : iseed0 = 0
  · have hc : toLong clock ≠ -1 := by tauto
    simp only [h0, if_true, if_neg hc]
  · simp only [if_neg h0]

theorem poissonLargeLoop_congr {D : Type} (ops : FloatOps D) (c c' : PoissonStatics D) (mean : D)
    (halpha : c.alpha = c'.alpha) (hbeta : c.beta = c'.beta) (hk : c.k = c'.k)
    (hPI : c.PI = c'.PI) (hlnf : c.lnf = c'.lnf) :
    ∀ (fuel st : Nat), poissonLargeLoop ops c mean fuel st = poissonLargeLoop ops c' mean fuel st := by
  intro fuel
  induction fuel with
  | zero => intro st; rfl
  | succ f ih =>
    intro st
    simp only [poissonLargeLoop, poissonLnf0, halpha, hbeta, hk, hPI, hlnf, ih]

theorem PoissonStatics.init_notStale {D : Type} (ops : FloatOps D)
    (hne : ∀ a b : D, ops.le b (ops.ofRat 0) = false → ops.ne a b = false → a = b)
    (h100 : ops.le (ops.ofRat (-100)) (ops.ofRat 0) = true) :
    (PoissonStatics.init ops).NotStale ops := by
  have hlut : (PoissonStatics.init ops).lut = -1 := rfl
  refine ⟨fun h => absurd (by rw [hlut]; decide) h, ?_⟩
  intro mean h0 hsame
  rw [PoissonStatics.init_oldMean] at hsame
  have := hne _ _ h0 hsame
  rw [← this, h100] at h0
  exact absurd h0 (by decide)

theorem poissonInitLut_notStale {D : Type} (ops : FloatOps D) (c : PoissonStatics D)
    (hc : c.NotStale ops) :
    (poissonInitLut ops c).NotStale ops ∧ (poissonInitLut ops c).lnf = lnfInit ops ∧
      ¬ (poissonInitLut ops c).lut < 0 := by
  unfold poissonInitLut
  by_cases hl : c.lut < 0
  · rw [if_pos hl]
    refine ⟨⟨fun _ => by dsimp only, fun mean h0 hsame => hc.2 mean h0 hsame⟩,
      by dsimp only, ?_⟩
    show ¬ ((1 : Int) < 0)
    decide
  · rw [if_neg hl]
    exact ⟨hc, hc.1 hl, hl⟩

theorem poissonCacheSmall_notStale {D : Type} (ops : FloatOps D)
    (hne : ∀ a b : D, ops.le b (ops.ofRat 0) = false → ops.ne a b = false → a = b)
    (c : PoissonStatics D) (hc : c.NotStale ops) (mean : D)
    (h0 : ops.le mean (ops.ofRat 0) = false) (h30 : ops.lt mean (ops.ofRat 30) = true) :
    (poissonCacheSmall ops c mean).oldEmean = (poissonFresh ops mean).oldEmean ∧
      (poissonCacheSmall ops c mean).NotStale ops ∧
      (poissonCacheSmall ops c mean).lnf = c.lnf := by
  unfold poissonCacheSmall
  by_cases hn : ops.ne c.oldMean mean = true
  · rw [if_pos hn]
    refine ⟨rfl, ⟨hc.1, ?_⟩, rfl⟩
    intro mean' h0' hsame
    have hmm : mean = mean' := hne _ _ h0' hsame
    subst hmm
    exact ⟨fun _ => rfl, fun hf => by rw [h30] at hf; exact absurd hf (by decide)⟩
  · rw [if_neg hn]
    have hn' : ops.ne c.oldMean mean = false := by simpa using hn
    exact ⟨(hc.2 mean h0 hn').1 h30, hc, rfl⟩

theorem poissonCacheLarge_notStale {D : Type} (ops : FloatOps D)
    (hne : ∀ a b : D, ops.le b (ops.ofRat 0) = false → ops.ne a b = false → a = b)
    (c : PoissonStatics D) (hc : c.NotStale ops) (mean : D)
    (h0 : ops.le mean (ops.ofRat 0) = false) (h30 : ops.lt mean (ops.ofRat 30) = false) :
    ((poissonCacheLarge ops c mean).PI = (poissonFresh ops mean).PI ∧
      (poissonCacheLarge ops c mean).beta = (poissonFresh ops mean).beta ∧
      (poissonCacheLarge ops c mean).alpha = (poissonFresh ops mean).alpha ∧
      (poissonCacheLarge ops c mean).c = (poissonFresh ops mean).c ∧
      (poissonCacheLarge ops c mean).k = (poissonFresh ops mean).k) ∧
      (poissonCacheLarge ops c mean).NotStale ops ∧
      (poissonCacheLarge ops c mean).lnf = c.lnf := by
  unfold poissonCacheLarge
  by_cases hn : ops.ne c.oldMean mean = true
  · rw [if_pos hn]
    refine ⟨⟨rfl, rfl, rfl, rfl, rfl⟩, ⟨hc.1, ?_⟩, rfl⟩
    intro mean' h0' hsame
    have hmm : mean = mean' := hne _ _ h0' hsame
    subst hmm
    exact ⟨fun hf => by rw [h30] at hf; exact absurd hf (by decide),
      fun _ => ⟨rfl, rfl, rfl, rfl, rfl⟩⟩
  · rw [if_neg hn]
    have hn' : ops.ne c.oldMean mean = false := by simpa using hn
    exact ⟨(hc.2 mean h0 hn').2 h30, hc, rfl⟩

/-- One cached call from statics that are not stale agrees with the uncached call
and leaves statics that are not stale. -/
theorem ranPoisson_step_refines {D : Type} (ops : FloatOps D)
    (hne : ∀ a b : D, ops.le b (ops.ofRat 0) = false → ops.ne a b = false → a = b)
    (c : PoissonStatics D) (hc : c.NotStale ops) (fuel st : Nat) (mean : D) :
    (ranPoisson ops fuel c st mean).map (fun r => (r.1, r.2.1)) =
        ranPoissonUncached ops fuel st mean ∧
      ∀ n st' c', ranPoisson ops fuel c st mean = some (n, st', c') → c'.NotStale ops := by
  unfold ranPoisson ranPoissonUncached
  by_cases h0 : ops.le mean (ops.ofRat 0) = true
  · simp only [h0, if_true, Option.map_some', Option.some.injEq, Prod.mk.injEq, true_and]
    intro n st' c' h
    rw [← h.2.2]
    exact hc
  · have h0' : ops.le mean (ops.ofRat 0) = false := by simpa using h0
    obtain ⟨hc1, hlnf1, _⟩ := poissonInitLut_notStale ops c hc
    by_cases h30 : ops.lt mean (ops.ofRat 30) = true
    · obtain ⟨he, hc2, _⟩ := poissonCacheSmall_notStale ops hne _ hc1 mean h0' h30
      simp only [h0', Bool.false_eq_true, if_false, h30, if_true, he]
      cases hl : poissonSmallLoop ops (poissonFresh ops mean).oldEmean fuel (-1) (ops.ofRat 1) st with
      | none => simp
      | some p =>
        refine ⟨by simp, ?_⟩
        intro n st' c' h
        simp only [Option.some.injEq, Prod.mk.injEq] at h
        rw [← h.2.2]
        exact hc2
    · have h30' : ops.lt mean (ops.ofRat 30) = false := by simpa using h30
      obtain ⟨⟨hPI, hbeta, halpha, _, hk⟩, hc2, hlnf2⟩ :=
        poissonCacheLarge_notStale ops hne _ hc1 mean h0' h30'
      have hloop := poissonLargeLoop_congr ops
        (poissonCacheLarge ops (poissonInitLut ops c) mean) (poissonFresh ops mean) mean
        halpha hbeta hk hPI (by rw [hlnf2, hlnf1]; simp only [poissonFresh]) fuel st
      simp only [h0', Bool.false_eq_true, if_false, h30', hloop]
      cases hl : poissonLargeLoop ops (poissonFresh ops mean) mean fuel st with
      | none => simp
      | some p =>
        refine ⟨by simp, ?_⟩
        intro n st' c' h
        simp only [Option.some.injEq, Prod.mk.injEq] at h
        rw [← h.2.2]
        exact hc2

theorem ranPoissonSeq_refines {D : Type} (ops : FloatOps D)
    (hne : ∀ a b : D, ops.le b (ops.ofRat 0) = false → ops.ne a b = false → a = b)
    (fuel : Nat) (means : List D) :
    ∀ (c : PoissonStatics D) (st : Nat), c.NotStale ops →
      (ranPoissonSeq ops fuel c st means).map (fun r => (r.1, r.2.1)) =
          ranPoissonUncachedSeq ops fuel st means ∧
        ∀ ns st' c', ranPoissonSeq ops fuel c st means = some (ns, st', c') →
          c'.NotStale ops := by
  induction means with
  | nil =>
    intro c st hc
    refine ⟨rfl, ?_⟩
    intro ns st' c' h
    simp only [ranPoissonSeq, Option.some.injEq, Prod.mk.injEq] at h
    rw [← h.2.2]
    exact hc
  | cons mean rest ih =>
    intro c st hc
    obtain ⟨hstep, hinv⟩ := ranPoisson_step_refines ops hne c hc fuel st mean
    simp only [ranPoissonSeq, ranPoissonUncachedSeq]
    rw [← hstep]
    cases h1 : ranPoisson ops fuel c st mean with
    | none => simp
    | some p =>
      obtain ⟨n, st1, c1⟩ := p
      obtain ⟨hrest, hinv'⟩ := ih c1 st1 (hinv n st1 c1 h1)
      simp only [Option.map_some']
      rw [← hrest]
      cases h2 : ranPoissonSeq ops fuel c1 st1 rest with
      | none => simp
      | some q =>
        obtain ⟨ns, st2, c2⟩ := q
        refine ⟨by simp, ?_⟩
        intro ns' st' c' h
        simp only [Option.some.injEq, Prod.mk.injEq] at h
        rw [← h.2.2]
        exact hinv' ns st2 c2 h2

/-! ## Theorems: seed status, seed copy and the Poisson cache -/

/-- C17: for every caller seed and every clock value in the range of `long`,
`getStatus()` is negative exactly when the seed was 0 and the clock call returned
`-1`, and then it is `-1` and the state word is 234; in every other case
`getStatus()` is `+1` and the state word is the caller's seed when that is
non-zero, else the clock value converted to `uint64_t` (the clock value itself
when it is not negative). -/
theorem ransubs_new_status (iseed0 : Nat) (clock : Int)
    (hclock : -2 ^ 63 ≤ clock ∧ clock < 2 ^ 63) :
    ((ransubs.new iseed0 clock).getStatus < 0 ↔ (iseed0 = 0 ∧ clock = -1)) ∧
    ((iseed0 = 0 ∧ clock = -1) →
      (ransubs.new iseed0 clock).getStatus = -1 ∧ (ransubs.new iseed0 clock).iseed = 234) ∧
    (¬ (iseed0 = 0 ∧ clock = -1) →
      (ransubs.new iseed0 clock).getStatus = 1 ∧
      (iseed0 ≠ 0 → (ransubs.new iseed0 clock).iseed = iseed0) ∧
      (iseed0 = 0 → (ransubs.new iseed0 clock).iseed = toU64 clock ∧
        (0 ≤ clock → ((ransubs.new iseed0 clock).iseed : Int) = clock))) := by
  have hlong : toLong clock = clock := by
    unfold toLong
    omega
  unfold ransubs.getStatus ransubs.new
  rw [hlong]
  by_cases h0 : iseed0 = 0
  · by_cases h1 : clock = -1
    · subst h0 h1
      simp only [if_true]
      refine ⟨by decide, fun _ => by decide, fun h => by simp at h⟩
    · subst h0
      simp only [if_true, if_neg h1]
      refine ⟨?_, fun h => absurd h.2 h1, fun _ => ⟨trivial, fun h => absurd rfl h, fun _ => ⟨trivial, ?_⟩⟩⟩
      · constructor
        · intro h; exact absurd h (by decide)
        · intro h; exact absurd h.2 h1
      · intro hc
        unfold toU64
        omega
  · simp only [if_neg h0]
    refine ⟨?_, fun h => absurd h.1 h0, fun _ => ⟨trivial, fun _ => trivial, fun h => absurd h h0⟩⟩
    constructor
    · intro h; exact absurd h (by decide)
    · intro h; exact absurd h.1 h0

/-- Witness for C17: seed 0, clock value `-1`. -/
theorem ransubs_new_status_witness :
    ((-2 : Int) ^ 63 ≤ -1 ∧ (-1 : Int) < 2 ^ 63) ∧
      ((ransubs.new 0 (-1)).getStatus < 0 ↔ ((0 : Nat) = 0 ∧ (-1 : Int) = -1)) :=
  ⟨by norm_num, (ransubs_new_status 0 (-1) (by norm_num)).1⟩

/-- C18: at the concrete input "seed 0, clock call returns `-1`" the constructor
stores `(uint64_t)(-1) = 18446744073709551615` in `initseed` while the state word
is initialised with 234, so `getInitSeed()` does not report the value the
generator was initialised with. -/
theorem ransubs_new_clock_failure_initseed :
    (ransubs.new 0 (-1)).getInitSeed = 18446744073709551615 ∧
      (ransubs.new 0 (-1)).iseed = 234 ∧
      (ransubs.new 0 (-1)).getInitSeed ≠ (ransubs.new 0 (-1)).iseed := by
  decide

/-- C19: let the floating-point comparisons satisfy that a value comparing equal to
a mean that is not `<= 0` is that mean, and that `-100 <= 0`.  Then for every
finite sequence of means, every fuel and every start state, the cached
`ranPoisson` started from the statics of program start returns the same values
and leaves the same state word as the uncached generator that recomputes every
constant on each call (and runs out of fuel exactly when that one does); and
whatever calls have been made, the constants the next call uses are the ones
freshly computed from its own mean: `exp(-mean)` in the small-mean branch, and
`PI`, `beta`, `alpha`, `c`, `k` and the lookup table in the large-mean branch. -/
theorem ranPoisson_cache_never_stale {D : Type} (ops : FloatOps D)
    (hne : ∀ a b : D, ops.le b (ops.ofRat 0) = false → ops.ne a b = false → a = b)
    (h100 : ops.le (ops.ofRat (-100)) (ops.ofRat 0) = true)
    (fuel st : Nat) (means : List D) :
    (ranPoissonSeq ops fuel (PoissonStatics.init ops) st means).map (fun r => (r.1, r.2.1)) =
        ranPoissonUncachedSeq ops fuel st means ∧
    ∀ ns st' c, ranPoissonSeq ops fuel (PoissonStatics.init ops) st means = some (ns, st', c) →
      ∀ mean : D, ops.le mean (ops.ofRat 0) = false →
        (ops.lt mean (ops.ofRat 30) = true →
          (poissonCacheSmall ops (poissonInitLut ops c) mean).oldEmean =
            ops.exp (ops.neg mean)) ∧
        (ops.lt mean (ops.ofRat 30) = false →
          (poissonCacheLarge ops (poissonInitLut ops c) mean).PI = (poissonFresh ops mean).PI ∧
          (poissonCacheLarge ops (poissonInitLut ops c) mean).beta =
            (poissonFresh ops mean).beta ∧
          (poissonCacheLarge ops (poissonInitLut ops c) mean).alpha =
            (poissonFresh ops mean).alpha ∧
          (poissonCacheLarge ops (poissonInitLut ops c) mean).c = (poissonFresh ops mean).c ∧
          (poissonCacheLarge ops (poissonInitLut ops c) mean).k = (poissonFresh ops mean).k ∧
          (poissonCacheLarge ops (poissonInitLut ops c) mean).lnf = lnfInit ops) := by
  obtain ⟨hres, hinv⟩ := ranPoissonSeq_refines ops hne fuel means (PoissonStatics.init ops) st
    (PoissonStatics.init_notStale ops hne h100)
  refine ⟨hres, ?_⟩
  intro ns st' c hrun mean h0
  obtain ⟨hc1, hlnf1, _⟩ := poissonInitLut_notStale ops c (hinv ns st' c hrun)
  constructor
  · intro h30
    exact (poissonCacheSmall_notStale ops hne _ hc1 mean h0 h30).1
  · intro h30
    obtain ⟨⟨hPI, hbeta, halpha, hcc, hk⟩, _, hlnf2⟩ :=
      poissonCacheLarge_notStale ops hne _ hc1 mean h0 h30
    exact ⟨hPI, hbeta, halpha, hcc, hk, by rw [hlnf2, hlnf1]⟩

/-- Witness for C19: the rational arithmetic and the means 1, -1, 40, 1 from state
word 1. -/
theorem ranPoisson_cache_never_stale_witness :
    (∀ a b : ℚ, ratOps.le b (ratOps.ofRat 0) = false → ratOps.ne a b = false → a = b) ∧
    ratOps.le (ratOps.ofRat (-100)) (ratOps.ofRat 0) = true ∧
    (ranPoissonSeq ratOps 1 (PoissonStatics.init ratOps) 1 [1, -1, 40, 1]).map
        (fun r => (r.1, r.2.1)) =
      ranPoissonUncachedSeq ratOps 1 1 [1, -1, 40, 1] :=
  ⟨fun a b _ h => by simpa [ratOps] using h,
   by norm_num [ratOps],
   (ranPoisson_cache_never_stale ratOps (fun a b _ h => by simpa [ratOps] using h)
      (by norm_num [ratOps]) 1 1 [1, -1, 40, 1]).1⟩

end Temsim
